import Mathlib

/-!
Shallow embedding of the user-config converter of the repository
(internal/sdkprovider/userconfig/converters/converters.go): the bidirectional
translation between terraform state/config trees and the JSON-shaped DTO
exchanged with the Aiven API.

Conventions of the embedding:
* terraform/Go machine values (the `any` universe of the Go code) are `Val`;
  JSON numbers decoded with `json.Number` are a distinct constructor `jsonNum`
  (a Go type assertion distinguishes them from Go `int`/`float64`), and
  `float64` is modelled by exact rationals (no claim depends on rounding).
* raw-config values (`cty.Value`) are `Cty`; the zero `cty.NilVal` and a null
  value both answer `IsNull`, so both are `Cty.null`.
* fallible Go code returns `Except GoErr`; a *returned* Go error is
  `GoErr.err`, a runtime panic (failed bare type assertion) is `GoErr.crash`.
  Error wrapping in the source decorates only returned errors; a panic
  unwinds past the wrapping.
-/

inductive SchemaType where
  | string
  | bool
  | int
  | float
  | list
  | set
deriving DecidableEq, Repr

mutual
inductive Schema where
  | mk (type : SchemaType) (forceNew : Bool) (maxItems : Nat) (elem : SchemaElem)
deriving Repr

inductive SchemaElem where
  | empty
  | scalar (s : Schema)
  | resource (fields : List SField)
deriving Repr

inductive SField where
  | mk (name : String) (schema : Schema)
deriving Repr
end

def Schema.type : Schema → SchemaType
  | .mk t _ _ _ => t

def Schema.forceNew : Schema → Bool
  | .mk _ f _ _ => f

def Schema.maxItems : Schema → Nat
  | .mk _ _ m _ => m

def Schema.elem : Schema → SchemaElem
  | .mk _ _ _ e => e

def SField.name : SField → String
  | .mk n _ => n

def SField.schema : SField → Schema
  | .mk _ s => s

/-- Association-list lookup (Go map indexing `m[k]`). -/
def getVal {A : Type} : List (String × A) → String → Option A
  | [], _ => none
  | (k2, v) :: rest, k => if k2 = k then some v else getVal rest k

/-- A raw-config value (`cty.Value`). -/
inductive Cty where
  | null
  | str (s : String)
  | num (q : Rat)
  | bool (b : Bool)
  | obj (fields : List (String × Cty))
  | seq (items : List Cty)
deriving Repr

/-- `cty.Value.IsNull` (also true for the zero `cty.NilVal`). -/
def Cty.isNull : Cty → Bool
  | .null => true
  | _ => false

/-- `cty.Value.CanIterateElements`: collections and objects iterate. -/
def Cty.canIterate : Cty → Bool
  | .obj _ => true
  | .seq _ => true
  | _ => false

/-- `cty.Value.LengthInt`. -/
def Cty.lengthInt : Cty → Nat
  | .seq l => l.length
  | .obj fs => fs.length
  | _ => 0

/-- `cty.Value.AsValueSlice`. -/
def Cty.asValueSlice : Cty → List Cty
  | .seq l => l
  | _ => []

/-- `cty.Value.GetAttr` on an object value. -/
def Cty.getAttr : Cty → String → Cty
  | .obj fs, k => (getVal fs k).getD .null
  | _, _ => .null

/-- The Go `any` universe as it appears in this engine: terraform state
values, Go slices/maps built for the DTO, and JSON-decoded DTO values. -/
inductive Val where
  | null
  | str (s : String)
  | bool (b : Bool)
  | int (n : Int)
  | float (q : Rat)
  | jsonNum (q : Rat)
  | list (items : List Val)
  | set (items : List Val)
  | map (fields : List (String × Val))
deriving Repr

/-- Go `delete(m, k)`. -/
def delKey (m : List (String × Val)) (k : String) : List (String × Val) :=
  m.filter (fun p => p.1 ≠ k)

/-- Go map assignment `m[k] = v`. Entry order is irrelevant (Go maps are
unordered; every consumer goes through `getVal`), so the updated entry is
kept at the front. -/
def setKey (m : List (String × Val)) (k : String) (v : Val) : List (String × Val) :=
  (k, v) :: delKey m k

/-- Outcome of a failed conversion: a returned `error`, or a runtime panic
(failed bare type assertion), which aborts without being wrapped. -/
inductive GoErr where
  | err (msg : String)
  | crash (msg : String)
deriving Repr

/-- The wrapping in `expandObj`/`flattenObj`:
`fmt.Errorf("%q field conversion error: %w", k, err)`.
Panics are not wrapped; they unwind past the wrapping code. -/
def wrapErr (k : String) : GoErr → GoErr
  | .err m => .err ("\"" ++ k ++ "\" field conversion error: " ++ m)
  | .crash m => .crash m

/-- Terraform's zero-value check used by `ResourceData.GetOk`. -/
def isZeroVal : Val → Bool
  | .null => true
  | .str s => s = ""
  | .bool b => !b
  | .int n => n = 0
  | .float q => q = 0
  | .jsonNum q => q = 0
  | .list l => l.isEmpty
  | .set l => l.isEmpty
  | .map m => m.isEmpty

/-- `schema.ResourceData`: the raw config tree plus the materialized value
store (plan/state), addressed with dotted paths (`foo.0.bar`). -/
structure ResourceData where
  rawConfig : Cty
  state : List (String × Val)
  changed : List String
  isNew : Bool

/-- `d.Get(path)`: never fails; a path never set resolves to a zero value
(modelled as `.null`; no claim evaluates `Get` on an unset path). -/
def ResourceData.get (d : ResourceData) (path : String) : Val :=
  (getVal d.state path).getD .null

/-- `d.GetOk(path)`: the value plus an "is set and non-zero" flag. -/
def ResourceData.getOk (d : ResourceData) (path : String) : Option Val :=
  match getVal d.state path with
  | some v => if isZeroVal v then none else some v
  | none => none

/-- `d.HasChange(path)`. -/
def ResourceData.hasChangePath (d : ResourceData) (path : String) : Bool :=
  d.changed.contains path

/-- converters.go `stateCompose` (the `schema` field is passed separately to
the walk functions; it only drives the recursion). -/
structure StateCompose where
  key : String
  path : String
  config : Cty
  resource : ResourceData

def StateCompose.value (s : StateCompose) : Val :=
  s.resource.get s.path

/-- converters.go `stateCompose.hasValue`: true when there is *no* usable
config value (null, or an iterable of length zero). -/
def StateCompose.hasValue (s : StateCompose) : Bool :=
  s.config.isNull || (s.config.canIterate && s.config.lengthInt == 0)

def StateCompose.hasChange (s : StateCompose) : Bool :=
  s.resource.hasChangePath s.path

/-- The child state built in `stateCompose.objectProperties` for one field
key: `config = s.config.GetAttr(key)` unless the parent config is null. -/
def propState (s : StateCompose) (k : String) : StateCompose :=
  { key := k
    path := s.path ++ "." ++ k
    config := if s.config.isNull then Cty.null else s.config.getAttr k
    resource := s.resource }

/-- converters.go `stateCompose.listItems`. -/
def listItems (s : StateCompose) : List StateCompose :=
  if s.config.isNull then []
  else
    (s.config.asValueSlice.enum).map fun p =>
      { key := s.key
        path := s.path ++ "." ++ toString p.1
        config := p.2
        resource := s.resource }

/-- Decimal-ish rendering shared by `big.Float.String()` (config side) and
`fmt.Sprintf("%v", ...)` (state side); the sources agree on the numbers the
engine sees, so a single injective rendering is used for both. -/
def numStr (q : Rat) : String :=
  if q.den = 1 then toString q.num else toString q.num ++ "/" ++ toString q.den

/-- The hash of one declared set element in `setItems`:
`AsString` for strings, else `AsBigFloat().String()` (panics on non-numbers;
the comment says "Supports int and float types only"). -/
def ctyHash : Cty → Except GoErr String
  | .str s => .ok s
  | .num q => .ok (numStr q)
  | _ => .error (.crash "AsBigFloat on a non-number config value")

/-- `fmt.Sprintf("%v", v)` on the scalar state values a set can hold. -/
def goHashStr : Val → String
  | .str s => s
  | .int n => toString n
  | .float q => numStr q
  | .bool b => if b then "true" else "false"
  | _ => "<nil>"

/-- converters.go `stateCompose.setItems`: keep the materialized set elements
whose rendering matches a declared config element. -/
def setItems (s : StateCompose) : Except GoErr (List Val) :=
  if s.config.isNull then
    .ok []
  else do
    let hashes ← s.config.asValueSlice.mapM ctyHash
    match s.value with
    | .set vs => .ok (vs.filter (fun v => hashes.contains (goHashStr v)))
    | _ => .error (.crash "interface conversion: state value is not a Set")

/-- converters.go `expandScalar`: nothing when the config has no value, else
the materialized value. Never returns an error. -/
def expandScalar (st : StateCompose) : Option Val :=
  if st.hasValue then none else some st.value

/-- The post-processing of the expanded items of a `TypeList` of objects in
`expandAttr`: with `MaxItems == 1` a single object is unwrapped and zero
objects contribute nothing; otherwise the array is emitted as is. -/
def objListResult (mi : Nat) (items : List Val) : Option Val :=
  if mi = 1 then
    match items with
    | [x] => some x
    | [] => none
    | _ => some (.list items)
  else some (.list items)

mutual
/-- converters.go `expandAttr`. Non-collection kinds go to `expandScalar`; a
collection that has no config value and no pending change contributes
nothing; a set uses `setItems`; a list of objects expands each element (the
Go code checks `exp != nil` before appending, but a map boxed into `any` is
a non-nil interface even when the map is empty, so every expanded object is
kept); a list of scalars expands each element with `expandScalar`. -/
def expandAttr : Schema → StateCompose → Except GoErr (Option Val)
  | .mk .string _ _ _, st => .ok (expandScalar st)
  | .mk .bool _ _ _, st => .ok (expandScalar st)
  | .mk .int _ _ _, st => .ok (expandScalar st)
  | .mk .float _ _ _, st => .ok (expandScalar st)
  | .mk .set _ _ _, st =>
    if st.hasValue && !st.hasChange then .ok none
    else
      match setItems st with
      | .error e => .error e
      | .ok xs => .ok (some (.list xs))
  | .mk .list _ mi (.resource fields), st =>
    if st.hasValue && !st.hasChange then .ok none
    else
      match expandItems fields (listItems st) with
      | .error e => .error e
      | .ok items => .ok (objListResult mi items)
  | .mk .list _ _ _, st =>
    if st.hasValue && !st.hasChange then .ok none
    else .ok (some (.list ((listItems st).filterMap expandScalar)))
termination_by sch _ => (sizeOf sch, 0)
decreasing_by all_goals (simp_wf; omega)

/-- The loop body of `expandAttr` over the element states of a list of
objects; every expanded object is kept (see `expandAttr`'s comment). -/
def expandItems (fields : List SField) (sts : List StateCompose) : Except GoErr (List Val) :=
  match sts with
  | [] => .ok []
  | s :: rest =>
    match expandFields fields s with
    | .error e => .error e
    | .ok m =>
      match expandItems fields rest with
      | .error e => .error e
      | .ok tl => .ok (.map m :: tl)
termination_by (sizeOf fields, sts.length + 1)
decreasing_by all_goals (simp_wf; omega)

/-- One property of `expandObj`: skipped entirely when `forceNew` on an
existing resource, otherwise `expandAttr` under the child state, with a
returned error wrapped with the field name. -/
def expandField1 (k : String) (sub : Schema) (st : StateCompose) : Except GoErr (Option (String × Val)) :=
  if sub.forceNew && !st.resource.isNew then .ok none
  else
    match expandAttr sub (propState st k) with
    | .error e => .error (wrapErr k e)
    | .ok none => .ok none
    | .ok (some v) => .ok (some (k, v))
termination_by (sizeOf sub, 1)
decreasing_by all_goals omega

/-- converters.go `expandObj`: one DTO entry per object property whose
`expandAttr` value is non-nil. -/
def expandFields (fields : List SField) (st : StateCompose) : Except GoErr (List (String × Val)) :=
  match fields with
  | [] => .ok []
  | .mk k sub :: rest =>
    match expandField1 k sub st with
    | .error e => .error e
    | .ok h =>
      match expandFields rest st with
      | .error e => .error e
      | .ok tl =>
        match h with
        | none => .ok tl
        | some p => .ok (p :: tl)
termination_by (sizeOf fields, 0)
decreasing_by all_goals (simp_wf; omega)
end

def userConfigSuffix : String := "_user_config"

/-- converters.go `aliasFieldsMap`: physical ("virtual") field name to the
real DTO field name. -/
def aliasFieldsMap : List (String × String) :=
  [("ip_filter_string", "ip_filter"),
   ("ip_filter_object", "ip_filter"),
   ("rules.0.mapping.0.namespaces_string", "namespaces"),
   ("rules.0.mapping.0.namespaces_object", "namespaces")]

/-- Move the value of key `phys` (when present) to key `logical`. -/
def renameInMap (m : List (String × Val)) (phys logical : String) : List (String × Val) :=
  match getVal m phys with
  | none => m
  | some v => delKey (setKey m logical v) phys

/-- Navigate a dotted path through a DTO value and rewrite the object found
at its end; a `0` component steps into the head of an array, and is a no-op
on an already-collapsed singleton object. Unresolvable paths leave the value
unchanged. -/
def modifyAtPath (comps : List String) (v : Val) (f : List (String × Val) → List (String × Val)) : Val :=
  match comps with
  | [] =>
    match v with
    | .map m => .map (f m)
    | _ => v
  | c :: rest =>
    if c = "0" then
      match v with
      | .list (x :: t) => .list (modifyAtPath rest x f :: t)
      | .map m => modifyAtPath rest (.map m) f
      | _ => v
    else
      match v with
      | .map m =>
        match getVal m c with
        | some child => .map (setKey m c (modifyAtPath rest child f))
        | none => v
      | _ => v

/-- `aliasFieldsMap` with each dotted physical key pre-split into the path of
its containing object, the physical field name, and the logical name. -/
def aliasGroups : List (List String × String × String) :=
  [([], "ip_filter_string", "ip_filter"),
   ([], "ip_filter_object", "ip_filter"),
   (["rules", "0", "mapping", "0"], "namespaces_string", "namespaces"),
   (["rules", "0", "mapping", "0"], "namespaces_object", "namespaces")]

/-- Rename one physical alias (whose name may sit behind a dotted path into
the DTO) to its logical name. -/
def renamePath (dto : List (String × Val)) (parents : List String) (phys logical : String) : List (String × Val) :=
  match parents with
  | [] => renameInMap dto phys logical
  | _ =>
    match modifyAtPath parents (.map dto) (fun m => renameInMap m phys logical) with
    | .map m => m
    | _ => dto

/-- Modelled from the spec: `renameAliases` is called by `Expand` but its
definition is not among the provided source files. Per §4.3 (final step) and
data-model invariant 4, after recursive expansion the built DTO is collapsed
to logical field names: every physical alias key of `aliasFieldsMap` (here
`aliasGroups`, with the dotted keys pre-split) that is present is renamed to
its logical counterpart. -/
def renameAliases (dto : List (String × Val)) : List (String × Val) :=
  aliasGroups.foldl (fun acc p => renamePath acc p.1 p.2.1 p.2.2) dto

/-- The root `stateCompose` built by `Expand`: the user-config key, the
`<key>.0` root path, and the first element of the raw-config block list
(`cty.NilVal`, i.e. null, when the block list is empty — "When \"configs\"
is empty, then we need to delete all arrays in it"). -/
def rootState (kind : String) (d : ResourceData) : StateCompose :=
  { key := kind ++ userConfigSuffix
    path := kind ++ userConfigSuffix ++ ".0"
    config :=
      match (d.rawConfig.getAttr (kind ++ userConfigSuffix)).asValueSlice with
      | [] => Cty.null
      | c :: _ => c
    resource := d }

/-- converters.go `Expand`: build the outgoing DTO for one user-config tree.
The root schema must be the user-config block list whose element is the
config object resource. -/
def Expand (kind : String) (sch : Schema) (d : ResourceData) : Except GoErr (List (String × Val)) :=
  match sch.elem with
  | .resource fields =>
    match expandFields fields (rootState kind d) with
    | .error e => .error e
    | .ok dto => .ok (renameAliases dto)
  | _ => .error (.crash "interface conversion: schema Elem is not a Resource")

/-- Modelled from the spec: the generic `castType[T]` helper used by
`flattenAttr` for string and bool leaves is not among the provided source
files. Per §4.4 ("cast the DTO leaf to the schema's declared kind; type
mismatch is a fatal conversion error"), a mismatch yields a *returned*
error (not a panic). -/
def castString : Val → Except GoErr Val
  | .str s => .ok (.str s)
  | _ => .error (.err "invalid type")

/-- Modelled from the spec: bool instance of `castType[T]`, see `castString`. -/
def castBool : Val → Except GoErr Val
  | .bool b => .ok (.bool b)
  | _ => .error (.err "invalid type")

/-- The `TypeInt` leaf of `flattenAttr`: `data.(json.Number).Int64()` — the
bare type assertion panics on a non-number, and `Int64` returns a parse
error on a non-integral literal. -/
def jsonInt : Val → Except GoErr Val
  | .jsonNum q =>
    if q.den = 1 then .ok (.int q.num)
    else .error (.err "strconv.ParseInt: parsing: invalid syntax")
  | _ => .error (.crash "interface conversion: interface is not json.Number")

/-- The `TypeFloat` leaf of `flattenAttr`: `data.(json.Number).Float64()`. -/
def jsonFloat : Val → Except GoErr Val
  | .jsonNum q => .ok (.float q)
  | _ => .error (.crash "interface conversion: interface is not json.Number")

mutual
/-- converters.go `flattenAttr`. Scalars are cast to the declared kind; an
Int/Float leaf is read with a bare `data.(json.Number)` assertion, so a
non-number there *panics* instead of returning an error; likewise a
non-array under a list of scalars, and a value that is neither object nor
array under an object field. A successful result is never a nil interface:
even an empty `[]any` from `flattenList` boxes into a non-nil `any`. -/
def flattenAttr : Schema → Val → Except GoErr Val
  | .mk .string _ _ _, data => castString data
  | .mk .bool _ _ _, data => castBool data
  | .mk .int _ _ _, data => jsonInt data
  | .mk .float _ _ _, data => jsonFloat data
  | .mk .list _ _ (.scalar _), .list xs => .ok (.list xs)
  | .mk .list _ _ (.scalar _), _ =>
    .error (.crash "interface conversion: interface is not a slice")
  | .mk .set _ _ (.scalar sc), .list xs =>
    match flattenScalars sc xs with
    | .error e => .error e
    | .ok vs => .ok (.set vs)
  | .mk .set _ _ (.scalar _), _ =>
    .error (.crash "interface conversion: interface is not a slice")
  | .mk _ _ _ (.resource fields), .map o =>
    match flattenItems fields (if o.isEmpty then [] else [.map o]) with
    | .error e => .error e
    | .ok vs => .ok (.list vs)
  | .mk _ _ _ (.resource fields), .list xs =>
    match flattenItems fields xs with
    | .error e => .error e
    | .ok vs => .ok (.list vs)
  | .mk _ _ _ (.resource _), _ =>
    .error (.crash "interface conversion: interface is not a slice")
  | .mk _ _ _ .empty, _ =>
    .error (.crash "interface conversion: schema Elem is not a Resource")
termination_by sch _ => (sizeOf sch, 0)
decreasing_by all_goals (simp_wf; omega)

/-- The element loop of the `TypeSet`-of-scalars branch of `flattenAttr`. -/
def flattenScalars (sc : Schema) (xs : List Val) : Except GoErr (List Val) :=
  match xs with
  | [] => .ok []
  | x :: rest =>
    match flattenAttr sc x with
    | .error e => .error e
    | .ok v =>
      match flattenScalars sc rest with
      | .error e => .error e
      | .ok vs => .ok (v :: vs)
termination_by (sizeOf sc, xs.length + 1)
decreasing_by all_goals (simp_wf; omega)

/-- converters.go `flattenList`: flatten each DTO object of the list against
the element resource schema and drop objects that flatten to nil; an element
that is not an object panics. -/
def flattenItems (fields : List SField) (xs : List Val) : Except GoErr (List Val) :=
  match xs with
  | [] => .ok []
  | .map o :: rest =>
    match flattenFields fields o with
    | .error e => .error e
    | .ok tfo =>
      match flattenItems fields rest with
      | .error e => .error e
      | .ok vs =>
        match tfo with
        | [] => .ok vs
        | _ => .ok (.map tfo :: vs)
  | _ :: _ => .error (.crash "interface conversion: interface is not a map")
termination_by (sizeOf fields, xs.length + 1)
decreasing_by all_goals (simp_wf; omega)

/-- One field of converters.go `flattenObj`: skipped when absent or nil in
the DTO, otherwise `flattenAttr`, with a returned conversion error wrapped
with the field name (a panic is not). -/
def flattenField1 (k : String) (sub : Schema) (dto : List (String × Val)) : Except GoErr (Option (String × Val)) :=
  match getVal dto k with
  | none => .ok none
  | some .null => .ok none
  | some v =>
    match flattenAttr sub v with
    | .error e => .error (wrapErr k e)
    | .ok w => .ok (some (k, w))
termination_by (sizeOf sub, 1)
decreasing_by all_goals omega

/-- The field loop of converters.go `flattenObj`: one local entry per schema
field present and non-nil in the DTO. -/
def flattenFields (fields : List SField) (dto : List (String × Val)) : Except GoErr (List (String × Val)) :=
  match fields with
  | [] => .ok []
  | .mk k sub :: rest =>
    match flattenField1 k sub dto with
    | .error e => .error e
    | .ok h =>
      match flattenFields rest dto with
      | .error e => .error e
      | .ok tl =>
        match h with
        | none => .ok tl
        | some p => .ok (p :: tl)
termination_by (sizeOf fields, 0)
decreasing_by all_goals (simp_wf; omega)
end

/-- converters.go `flattenObj`: `none` models the nil map returned when the
object flattens to zero populated fields. -/
def flattenObj (fields : List SField) (dto : List (String × Val)) : Except GoErr (Option (List (String × Val))) :=
  match flattenFields fields dto with
  | .error e => .error e
  | .ok [] => .ok none
  | .ok tfo => .ok (some tfo)

/-- Modelled from the spec: `drillKey` is called by `Flatten` but its
definition is not among the provided source files. It resolves a dotted key
path inside the DTO; a `0` component steps into the head of an array (and is
a no-op on a collapsed singleton object); resolution fails when a component
is missing. -/
def drillVal : List String → Val → Option Val
  | [], v => some v
  | c :: rest, v =>
    if c = "0" then
      match v with
      | .list (x :: _) => drillVal rest x
      | .map m => drillVal rest (.map m)
      | _ => none
    else
      match v with
      | .map m =>
        match getVal m c with
        | some child => drillVal rest child
        | none => none
      | _ => none

/-- See `drillVal`; the dotted path is taken pre-split into components. -/
def drillKey (dto : List (String × Val)) (comps : List String) : Option Val :=
  drillVal comps (.map dto)

/-- The string value of an object's ordering key, used by `sortByKey`. -/
def objKey (sortBy : String) : Val → Option String
  | .map m =>
    match getVal m sortBy with
    | some (.str s) => some s
    | _ => none
  | _ => none

/-- Modelled from the spec: `sortByKey` is called by `assignAlias` but its
definition is not among the provided source files. Per data-model
invariant 5 and §8 property 6, DTO objects are re-ordered to follow the
previously declared local order of their ordering-key values; objects whose
key does not appear locally keep their DTO order at the end. -/
def sortByKey (sortBy : String) (inState dtoV : Val) : Val :=
  let stateItems : List Val :=
    match inState with
    | .list xs => xs
    | .set xs => xs
    | _ => []
  let dtoItems : List Val :=
    match dtoV with
    | .list xs => xs
    | _ => []
  let stateKeys := stateItems.filterMap (objKey sortBy)
  let picked := (stateKeys.map (fun k => dtoItems.filter (fun v => decide (objKey sortBy v = some k)))).flatten
  let rest := dtoItems.filter (fun v =>
    match objKey sortBy v with
    | some k => !stateKeys.contains k
    | none => true)
  .list (picked ++ rest)

/-- The sorting part of `assignAlias`: when the DTO array is object-shaped
and the local state has the `_object` alias populated, re-order the DTO
array against the in-state order. -/
def sortStep (d : ResourceData) (path : String) (dto : List (String × Val)) (key sortBy : String) (values : List Val) : List (String × Val) :=
  match values.head? with
  | some (.map _) =>
    match d.getOk (path ++ "_object") with
    | some inState => setKey dto key (sortByKey sortBy inState (.list values))
    | none => dto
  | _ => dto

/-- The suffix choice of `assignAlias`: object-shaped DTO elements select
`_object`; a populated `_string` alias in local state wins; otherwise no
rename happens. -/
def aliasSuffix (d : ResourceData) (path : String) (values : List Val) : String :=
  if (d.getOk (path ++ "_string")).isSome then "_string"
  else
    match values.head? with
    | some (.map _) => "_object"
    | _ => ""

/-- The rename part of `assignAlias`: `dto[key+suffix] = dto[key];
delete(dto, key)` when a suffix was chosen. -/
def renameSuffix (dto : List (String × Val)) (key suffix : String) : List (String × Val) :=
  if suffix = "" then dto
  else
    match getVal dto key with
    | some v => delKey (setKey dto (key ++ suffix) v) key
    | none => dto

/-- converters.go `assignAlias`: rename a multi-typed DTO key to the virtual
field the local state uses, sorting object arrays against the in-state
order first. A missing key, a non-array value or an empty array leave the
DTO untouched. -/
def assignAlias (d : ResourceData) (path : String) (dto : List (String × Val)) (key sortBy : String) : List (String × Val) :=
  match getVal dto key with
  | some (.list values) =>
    if values.isEmpty then dto
    else
      renameSuffix (sortStep d path dto key sortBy values) key (aliasSuffix d path values)
  | _ => dto

/-- converters.go `createOnlyFields`: received on the create POST only. -/
def createOnlyFields : List String := ["admin_username", "admin_password"]

/-- The `Flatten` loop that copies create-only fields from the prior local
state over the DTO. -/
def copyCreateOnly (d : ResourceData) (pfx : String) (dto : List (String × Val)) : List (String × Val) :=
  createOnlyFields.foldl
    (fun acc k =>
      match d.getOk (pfx ++ k) with
      | some v => setKey acc k v
      | none => acc)
    dto

/-- The `ip_filter` pre-pass of `Flatten`. -/
def ipFilterStep (d : ResourceData) (pfx : String) (dto : List (String × Val)) : List (String × Val) :=
  if (getVal dto "ip_filter").isSome then
    assignAlias d (pfx ++ "ip_filter") dto "ip_filter" "network"
  else dto

/-- The `rules.0.mapping` `namespaces` pre-pass of `Flatten`: the drilled
value is asserted to be an object (a panic otherwise) and the alias
assignment mutates that nested object in place. -/
def namespacesStep (d : ResourceData) (pfx : String) (dto : List (String × Val)) : Except GoErr (List (String × Val)) :=
  match drillKey dto ["rules", "0", "mapping"] with
  | none => .ok dto
  | some (.map _) =>
    match modifyAtPath ["rules", "0", "mapping"] (.map dto)
        (fun m => assignAlias d (pfx ++ "rules.0.mapping.0.namespaces") m "namespaces" "name") with
    | .map m => .ok m
    | _ => .ok dto
  | some _ => .error (.crash "interface conversion: interface is not a map")

/-- converters.go `Flatten`: turn the incoming DTO into the local
user-config tree (`none` models the nil result when nothing is populated).
The prefix `kind ++ userConfigSuffix ++ ".0."` is written out at each use
site instead of a `let` binding. -/
def Flatten (kind : String) (sch : Schema) (d : ResourceData) (dto : List (String × Val)) : Except GoErr (Option (List (List (String × Val)))) :=
  match namespacesStep d (kind ++ userConfigSuffix ++ ".0.")
      (ipFilterStep d (kind ++ userConfigSuffix ++ ".0.") dto) with
  | .error e => .error e
  | .ok dto2 =>
    match sch.elem with
    | .resource fields =>
      match flattenObj fields (copyCreateOnly d (kind ++ userConfigSuffix ++ ".0.") dto2) with
      | .error e => .error e
      | .ok none => .ok none
      | .ok (some tfo) => .ok (some [tfo])
    | _ => .error (.crash "interface conversion: schema Elem is not a Resource")

/-! ### Lookup and small-step lemmas used by the claim proofs -/

theorem getVal_delKey_self (m : List (String × Val)) (k : String) :
    getVal (delKey m k) k = none := by
  induction m with
  | nil => simp [delKey, getVal]
  | cons p rest ih =>
    by_cases hp : p.1 = k
    · simpa [delKey, List.filter_cons, hp] using ih
    · simp only [delKey, List.filter_cons] at ih ⊢
      simp only [show (decide ¬p.1 = k) = true by simp [hp], Bool.not_false, if_true]
      rw [getVal, if_neg hp]
      exact ih

theorem getVal_delKey_ne (m : List (String × Val)) (k a : String) (h : a ≠ k) :
    getVal (delKey m k) a = getVal m a := by
  induction m with
  | nil => simp [delKey]
  | cons p rest ih =>
    by_cases hp : p.1 = k
    · have hpa : ¬p.1 = a := fun hh => h (hh ▸ hp)
      simp only [delKey, List.filter_cons] at ih ⊢
      simp only [show (decide ¬p.1 = k) = false by simp [hp], Bool.false_eq_true, if_false]
      rw [ih, getVal, if_neg hpa]
    · simp only [delKey, List.filter_cons] at ih ⊢
      simp only [show (decide ¬p.1 = k) = true by simp [hp], Bool.not_false, if_true]
      by_cases hpa : p.1 = a
      · simp [getVal, hpa]
      · rw [getVal, getVal, if_neg hpa, if_neg hpa]
        exact ih

theorem getVal_setKey_self (m : List (String × Val)) (k : String) (v : Val) :
    getVal (setKey m k v) k = some v := by
  simp [setKey, getVal]

theorem getVal_setKey_ne (m : List (String × Val)) (k a : String) (v : Val) (h : a ≠ k) :
    getVal (setKey m k v) a = getVal m a := by
  rw [setKey, getVal, if_neg (fun hh => h hh.symm)]
  exact getVal_delKey_ne m k a h

theorem flattenField1_absent (k : String) (sub : Schema) (dto : List (String × Val))
    (h : getVal dto k = none) : flattenField1 k sub dto = .ok none := by
  rw [flattenField1, h]

theorem flattenField1_null (k : String) (sub : Schema) (dto : List (String × Val))
    (h : getVal dto k = some .null) : flattenField1 k sub dto = .ok none := by
  rw [flattenField1, h]

theorem flattenField1_some (k : String) (sub : Schema) (dto : List (String × Val)) (v w : Val)
    (h : getVal dto k = some v) (hv : v ≠ .null) (hA : flattenAttr sub v = .ok w) :
    flattenField1 k sub dto = .ok (some (k, w)) := by
  cases v <;> first
  | exact absurd rfl hv
  | simp [flattenField1, h, hA]

theorem flattenField1_error (k : String) (sub : Schema) (dto : List (String × Val)) (v : Val)
    (e : GoErr) (h : getVal dto k = some v) (hv : v ≠ .null) (hA : flattenAttr sub v = .error e) :
    flattenField1 k sub dto = .error (wrapErr k e) := by
  cases v <;> first
  | exact absurd rfl hv
  | simp [flattenField1, h, hA]

theorem flattenFields_nil (dto : List (String × Val)) : flattenFields [] dto = .ok [] := by
  rw [flattenFields]

theorem flattenFields_cons_none (k : String) (sub : Schema) (rest : List SField)
    (dto : List (String × Val)) (tl : List (String × Val))
    (h1 : flattenField1 k sub dto = .ok none) (h2 : flattenFields rest dto = .ok tl) :
    flattenFields (.mk k sub :: rest) dto = .ok tl := by
  rw [flattenFields, h1, h2]

theorem flattenFields_cons_some (k : String) (sub : Schema) (rest : List SField)
    (dto : List (String × Val)) (p : String × Val) (tl : List (String × Val))
    (h1 : flattenField1 k sub dto = .ok (some p)) (h2 : flattenFields rest dto = .ok tl) :
    flattenFields (.mk k sub :: rest) dto = .ok (p :: tl) := by
  rw [flattenFields, h1, h2]

theorem flattenFields_cons_error (k : String) (sub : Schema) (rest : List SField)
    (dto : List (String × Val)) (e : GoErr)
    (h1 : flattenField1 k sub dto = .error e) :
    flattenFields (.mk k sub :: rest) dto = .error e := by
  rw [flattenFields, h1]

theorem flattenScalars_nil (sc : Schema) : flattenScalars sc [] = .ok [] := by
  rw [flattenScalars]

theorem flattenScalars_cons (sc : Schema) (x : Val) (rest : List Val) (v : Val) (vs : List Val)
    (h1 : flattenAttr sc x = .ok v) (h2 : flattenScalars sc rest = .ok vs) :
    flattenScalars sc (x :: rest) = .ok (v :: vs) := by
  rw [flattenScalars, h1, h2]

theorem flattenItems_nil (fields : List SField) : flattenItems fields [] = .ok [] := by
  rw [flattenItems]

theorem flattenItems_cons_drop (fields : List SField) (o : List (String × Val)) (rest : List Val)
    (vs : List Val) (h1 : flattenFields fields o = .ok []) (h2 : flattenItems fields rest = .ok vs) :
    flattenItems fields (.map o :: rest) = .ok vs := by
  rw [flattenItems, h1, h2]

theorem flattenItems_cons_keep (fields : List SField) (o : List (String × Val)) (rest : List Val)
    (q : String × Val) (tfo : List (String × Val)) (vs : List Val)
    (h1 : flattenFields fields o = .ok (q :: tfo)) (h2 : flattenItems fields rest = .ok vs) :
    flattenItems fields (.map o :: rest) = .ok (.map (q :: tfo) :: vs) := by
  rw [flattenItems, h1, h2]

theorem flattenAttr_string (fn : Bool) (mi : Nat) (el : SchemaElem) (data : Val) :
    flattenAttr (.mk .string fn mi el) data = castString data := by
  rw [flattenAttr]

theorem flattenAttr_bool (fn : Bool) (mi : Nat) (el : SchemaElem) (data : Val) :
    flattenAttr (.mk .bool fn mi el) data = castBool data := by
  rw [flattenAttr]

theorem flattenAttr_int (fn : Bool) (mi : Nat) (el : SchemaElem) (data : Val) :
    flattenAttr (.mk .int fn mi el) data = jsonInt data := by
  rw [flattenAttr]

theorem flattenAttr_float (fn : Bool) (mi : Nat) (el : SchemaElem) (data : Val) :
    flattenAttr (.mk .float fn mi el) data = jsonFloat data := by
  rw [flattenAttr]

theorem expandAttr_string (fn : Bool) (mi : Nat) (el : SchemaElem) (st : StateCompose) :
    expandAttr (.mk .string fn mi el) st = .ok (expandScalar st) := by
  rw [expandAttr]

theorem expandAttr_bool (fn : Bool) (mi : Nat) (el : SchemaElem) (st : StateCompose) :
    expandAttr (.mk .bool fn mi el) st = .ok (expandScalar st) := by
  rw [expandAttr]

theorem expandAttr_int (fn : Bool) (mi : Nat) (el : SchemaElem) (st : StateCompose) :
    expandAttr (.mk .int fn mi el) st = .ok (expandScalar st) := by
  rw [expandAttr]

theorem expandAttr_float (fn : Bool) (mi : Nat) (el : SchemaElem) (st : StateCompose) :
    expandAttr (.mk .float fn mi el) st = .ok (expandScalar st) := by
  rw [expandAttr]

theorem expandAttr_set_skip (fn : Bool) (mi : Nat) (el : SchemaElem) (st : StateCompose)
    (h : (st.hasValue && !st.hasChange) = true) :
    expandAttr (.mk .set fn mi el) st = .ok none := by
  rw [expandAttr, if_pos h]

theorem expandAttr_set_items (fn : Bool) (mi : Nat) (el : SchemaElem) (st : StateCompose)
    (xs : List Val) (h : (st.hasValue && !st.hasChange) = false) (hs : setItems st = .ok xs) :
    expandAttr (.mk .set fn mi el) st = .ok (some (.list xs)) := by
  rw [expandAttr, if_neg (by simp [h]), hs]

theorem expandAttr_objlist_skip (fn : Bool) (mi : Nat) (fields : List SField) (st : StateCompose)
    (h : (st.hasValue && !st.hasChange) = true) :
    expandAttr (.mk .list fn mi (.resource fields)) st = .ok none := by
  rw [expandAttr, if_pos h]

theorem expandAttr_objlist (fn : Bool) (mi : Nat) (fields : List SField) (st : StateCompose)
    (items : List Val) (h : (st.hasValue && !st.hasChange) = false)
    (hi : expandItems fields (listItems st) = .ok items) :
    expandAttr (.mk .list fn mi (.resource fields)) st = .ok (objListResult mi items) := by
  rw [expandAttr, if_neg (by simp [h]), hi]

theorem expandAttr_scalarlist_skip (fn : Bool) (mi : Nat) (sc : Schema) (st : StateCompose)
    (h : (st.hasValue && !st.hasChange) = true) :
    expandAttr (.mk .list fn mi (.scalar sc)) st = .ok none := by
  rw [expandAttr]
  · rw [if_pos h]
  · exact fun fields hh => nomatch hh

theorem expandAttr_scalarlist (fn : Bool) (mi : Nat) (sc : Schema) (st : StateCompose)
    (h : (st.hasValue && !st.hasChange) = false) :
    expandAttr (.mk .list fn mi (.scalar sc)) st
      = .ok (some (.list ((listItems st).filterMap expandScalar))) := by
  rw [expandAttr]
  · rw [if_neg (by simp [h])]
  · exact fun fields hh => nomatch hh

theorem expandItems_nil (fields : List SField) : expandItems fields [] = .ok [] := by
  rw [expandItems]

theorem expandItems_cons (fields : List SField) (s : StateCompose) (rest : List StateCompose)
    (m : List (String × Val)) (tl : List Val)
    (h1 : expandFields fields s = .ok m) (h2 : expandItems fields rest = .ok tl) :
    expandItems fields (s :: rest) = .ok (.map m :: tl) := by
  rw [expandItems, h1, h2]

theorem expandField1_skip (k : String) (sub : Schema) (st : StateCompose)
    (h : (sub.forceNew && !st.resource.isNew) = true) :
    expandField1 k sub st = .ok none := by
  rw [expandField1, if_pos h]

theorem expandField1_none (k : String) (sub : Schema) (st : StateCompose)
    (h : (sub.forceNew && !st.resource.isNew) = false)
    (hA : expandAttr sub (propState st k) = .ok none) :
    expandField1 k sub st = .ok none := by
  rw [expandField1, if_neg (by simp [h]), hA]

theorem expandField1_some (k : String) (sub : Schema) (st : StateCompose) (v : Val)
    (h : (sub.forceNew && !st.resource.isNew) = false)
    (hA : expandAttr sub (propState st k) = .ok (some v)) :
    expandField1 k sub st = .ok (some (k, v)) := by
  rw [expandField1, if_neg (by simp [h]), hA]

theorem expandFields_nil (st : StateCompose) : expandFields [] st = .ok [] := by
  rw [expandFields]

theorem expandFields_cons_none (k : String) (sub : Schema) (rest : List SField)
    (st : StateCompose) (tl : List (String × Val))
    (h1 : expandField1 k sub st = .ok none) (h2 : expandFields rest st = .ok tl) :
    expandFields (.mk k sub :: rest) st = .ok tl := by
  rw [expandFields, h1, h2]

theorem expandFields_cons_some (k : String) (sub : Schema) (rest : List SField)
    (st : StateCompose) (p : String × Val) (tl : List (String × Val))
    (h1 : expandField1 k sub st = .ok (some p)) (h2 : expandFields rest st = .ok tl) :
    expandFields (.mk k sub :: rest) st = .ok (p :: tl) := by
  rw [expandFields, h1, h2]

/-- A node whose config is null and whose materialized value is unchanged
contributes nothing, whatever its schema kind. -/
theorem expandAttr_none_of_null_unchanged (sch : Schema) (st : StateCompose)
    (hnull : st.config.isNull = true) (hch : st.hasChange = false) :
    expandAttr sch st = .ok none := by
  have hv : st.hasValue = true := by simp [StateCompose.hasValue, hnull]
  have hs : expandScalar st = none := by simp [expandScalar, hv]
  have hg : (st.hasValue && !st.hasChange) = true := by simp [hv, hch]
  obtain ⟨t, fn, mi, el⟩ := sch
  cases t with
  | string => rw [expandAttr_string, hs]
  | bool => rw [expandAttr_bool, hs]
  | int => rw [expandAttr_int, hs]
  | float => rw [expandAttr_float, hs]
  | set => exact expandAttr_set_skip fn mi el st hg
  | list =>
    cases el with
    | empty =>
      rw [expandAttr]
      · rw [if_pos hg]
      · exact fun fields hh => nomatch hh
    | scalar sc => exact expandAttr_scalarlist_skip fn mi sc st hg
    | resource fields => exact expandAttr_objlist_skip fn mi fields st hg

theorem expandField1_none_of_null_unchanged (k : String) (sub : Schema) (st : StateCompose)
    (hnull : (propState st k).config.isNull = true)
    (hch : (propState st k).hasChange = false) :
    expandField1 k sub st = .ok none := by
  rw [expandField1]
  by_cases hfn : (sub.forceNew && !st.resource.isNew) = true
  · rw [if_pos hfn]
  · rw [if_neg hfn, expandAttr_none_of_null_unchanged sub (propState st k) hnull hch]

/-- Keys of the DTO object built by `expandFields` come from field names. -/
theorem expandFields_getVal_not_mem (fields : List SField) (st : StateCompose) (k : String)
    (m : List (String × Val)) (hmem : k ∉ fields.map SField.name)
    (hok : expandFields fields st = .ok m) : getVal m k = none := by
  induction fields generalizing m with
  | nil =>
    rw [expandFields_nil] at hok
    cases hok
    rfl
  | cons f rest ih =>
    obtain ⟨k2, sub⟩ := f
    have hk2 : k2 ≠ k := by
      intro hh
      exact hmem (by simp [SField.name, hh])
    have hmem2 : k ∉ rest.map SField.name := fun hh => hmem (by simp [hh])
    rw [expandFields] at hok
    cases h1 : expandField1 k2 sub st with
    | error e => rw [h1] at hok; cases hok
    | ok hd =>
      rw [h1] at hok
      cases h2 : expandFields rest st with
      | error e => rw [h2] at hok; cases hok
      | ok tl =>
        rw [h2] at hok
        cases hd with
        | none => cases hok; exact ih _ hmem2 h2
        | some p =>
          cases hok
          rw [getVal, if_neg ?hne]
          · exact ih _ hmem2 h2
          · have : p.1 = k2 := by
              rw [expandField1] at h1
              by_cases hfn : (sub.forceNew && !st.resource.isNew) = true
              · rw [if_pos hfn] at h1; cases h1
              · rw [if_neg hfn] at h1
                cases hA : expandAttr sub (propState st k2) with
                | error e => rw [hA] at h1; cases h1
                | ok v? =>
                  rw [hA] at h1
                  cases v? with
                  | none => cases h1
                  | some v => cases h1; rfl
            rw [this]
            exact hk2

theorem expandField1_fst (k : String) (sub : Schema) (st : StateCompose) (p : String × Val)
    (h : expandField1 k sub st = .ok (some p)) : p.1 = k := by
  rw [expandField1] at h
  by_cases hfn : (sub.forceNew && !st.resource.isNew) = true
  · rw [if_pos hfn] at h; cases h
  · rw [if_neg hfn] at h
    cases hA : expandAttr sub (propState st k) with
    | error e => rw [hA] at h; cases h
    | ok v? =>
      rw [hA] at h
      cases v? with
      | none => cases h
      | some v => cases h; rfl

theorem flattenField1_fst (k : String) (sub : Schema) (dto : List (String × Val))
    (p : String × Val) (h : flattenField1 k sub dto = .ok (some p)) : p.1 = k := by
  rw [flattenField1] at h
  split at h
  · simp at h
  · simp at h
  · split at h
    · simp at h
    · cases h
      rfl

/-- Claim C4's core induction: a field whose raw config is null and whose
materialized value has no pending change never appears in the DTO object
built by `expandObj`, whatever its schema. -/
theorem expandFields_getVal_none_of_null_unchanged (fields : List SField) (st : StateCompose)
    (k : String) (m : List (String × Val))
    (hnull : (propState st k).config.isNull = true)
    (hch : (propState st k).hasChange = false)
    (hok : expandFields fields st = .ok m) : getVal m k = none := by
  induction fields generalizing m with
  | nil => rw [expandFields_nil] at hok; cases hok; rfl
  | cons f rest ih =>
    obtain ⟨k2, sub⟩ := f
    rw [expandFields] at hok
    by_cases hk2 : k2 = k
    · subst hk2
      rw [expandField1_none_of_null_unchanged k2 sub st hnull hch] at hok
      cases h2 : expandFields rest st with
      | error e => rw [h2] at hok; cases hok
      | ok tl => rw [h2] at hok; cases hok; exact ih _ h2
    · cases h1 : expandField1 k2 sub st with
      | error e => rw [h1] at hok; cases hok
      | ok hd =>
        rw [h1] at hok
        cases h2 : expandFields rest st with
        | error e => rw [h2] at hok; cases hok
        | ok tl =>
          rw [h2] at hok
          cases hd with
          | none => cases hok; exact ih _ h2
          | some p =>
            cases hok
            rw [getVal, if_neg (by rw [expandField1_fst k2 sub st p h1]; exact hk2)]
            exact ih _ h2

/-- With distinct field names, the DTO entry for a field is exactly what its
`expandField1` produced. -/
theorem expandFields_getVal_mem_some (fields : List SField) (st : StateCompose)
    (k : String) (sub : Schema) (v : Val) (m : List (String × Val))
    (hnodup : (fields.map SField.name).Nodup)
    (hmem : SField.mk k sub ∈ fields)
    (h1 : expandField1 k sub st = .ok (some (k, v)))
    (hok : expandFields fields st = .ok m) : getVal m k = some v := by
  induction fields generalizing m with
  | nil => cases hmem
  | cons f rest ih =>
    obtain ⟨k2, sub2⟩ := f
    have hnodup2 : (rest.map SField.name).Nodup := by
      simpa using hnodup.of_cons
    rw [expandFields] at hok
    rcases List.mem_cons.mp hmem with hhead | htail
    · cases hhead
      rw [h1] at hok
      cases h2 : expandFields rest st with
      | error e => rw [h2] at hok; cases hok
      | ok tl =>
        rw [h2] at hok
        cases hok
        rw [getVal, if_pos rfl]
    · have hk2 : k2 ≠ k := by
        intro hh
        subst hh
        have hmemname : k2 ∈ rest.map SField.name := List.mem_map.mpr ⟨_, htail, rfl⟩
        have hno : k2 ∉ rest.map SField.name := by
          have h2 := hnodup
          simp only [List.map_cons, SField.name, List.nodup_cons] at h2
          exact h2.1
        exact hno hmemname
      cases h1h : expandField1 k2 sub2 st with
      | error e => rw [h1h] at hok; cases hok
      | ok hd =>
        rw [h1h] at hok
        cases h2 : expandFields rest st with
        | error e => rw [h2] at hok; cases hok
        | ok tl =>
          rw [h2] at hok
          cases hd with
          | none => cases hok; exact ih _ hnodup2 htail h2
          | some p =>
            cases hok
            rw [getVal, if_neg (by rw [expandField1_fst k2 sub2 st p h1h]; exact hk2)]
            exact ih _ hnodup2 htail h2

/-- A key absent from the DTO is absent from the flattened object. -/
theorem flattenFields_getVal_none (fields : List SField) (dto : List (String × Val))
    (k : String) (tfo : List (String × Val))
    (hd : getVal dto k = none)
    (hok : flattenFields fields dto = .ok tfo) : getVal tfo k = none := by
  induction fields generalizing tfo with
  | nil => rw [flattenFields_nil] at hok; cases hok; rfl
  | cons f rest ih =>
    obtain ⟨k2, sub2⟩ := f
    rw [flattenFields] at hok
    by_cases hk2 : k2 = k
    · subst hk2
      rw [flattenField1_absent k2 sub2 dto hd] at hok
      cases h2 : flattenFields rest dto with
      | error e => rw [h2] at hok; cases hok
      | ok tl => rw [h2] at hok; cases hok; exact ih _ h2
    · cases h1 : flattenField1 k2 sub2 dto with
      | error e => rw [h1] at hok; cases hok
      | ok hd2 =>
        rw [h1] at hok
        cases h2 : flattenFields rest dto with
        | error e => rw [h2] at hok; cases hok
        | ok tl =>
          rw [h2] at hok
          cases hd2 with
          | none => cases hok; exact ih _ h2
          | some p =>
            cases hok
            rw [getVal, if_neg (by rw [flattenField1_fst k2 sub2 dto p h1]; exact hk2)]
            exact ih _ h2

/-- With distinct field names, the flattened entry for a field is exactly
what its `flattenField1` produced. -/
theorem flattenFields_getVal_mem_some (fields : List SField) (dto : List (String × Val))
    (k : String) (sub : Schema) (w : Val) (tfo : List (String × Val))
    (hnodup : (fields.map SField.name).Nodup)
    (hmem : SField.mk k sub ∈ fields)
    (h1 : flattenField1 k sub dto = .ok (some (k, w)))
    (hok : flattenFields fields dto = .ok tfo) : getVal tfo k = some w := by
  induction fields generalizing tfo with
  | nil => cases hmem
  | cons f rest ih =>
    obtain ⟨k2, sub2⟩ := f
    have hnodup2 : (rest.map SField.name).Nodup := by
      simpa using hnodup.of_cons
    rw [flattenFields] at hok
    rcases List.mem_cons.mp hmem with hhead | htail
    · cases hhead
      rw [h1] at hok
      cases h2 : flattenFields rest dto with
      | error e => rw [h2] at hok; cases hok
      | ok tl =>
        rw [h2] at hok
        cases hok
        rw [getVal, if_pos rfl]
    · have hk2 : k2 ≠ k := by
        intro hh
        subst hh
        have hmemname : k2 ∈ rest.map SField.name := List.mem_map.mpr ⟨_, htail, rfl⟩
        have hno : k2 ∉ rest.map SField.name := by
          have h3 := hnodup
          simp only [List.map_cons, SField.name, List.nodup_cons] at h3
          exact h3.1
        exact hno hmemname
      cases h1h : flattenField1 k2 sub2 dto with
      | error e => rw [h1h] at hok; cases hok
      | ok hd2 =>
        rw [h1h] at hok
        cases h2 : flattenFields rest dto with
        | error e => rw [h2] at hok; cases hok
        | ok tl =>
          rw [h2] at hok
          cases hd2 with
          | none => cases hok; exact ih _ hnodup2 htail h2
          | some p =>
            cases hok
            rw [getVal, if_neg (by rw [flattenField1_fst k2 sub2 dto p h1h]; exact hk2)]
            exact ih _ hnodup2 htail h2

/-- Inversion of a successful `Flatten` into its pipeline stages. -/
theorem Flatten_ok_inv (kind : String) (sch : Schema) (d : ResourceData)
    (dto : List (String × Val)) (l : List (List (String × Val)))
    (hF : Flatten kind sch d dto = .ok (some l)) :
    ∃ fields dto2 tfo,
      sch.elem = .resource fields
      ∧ namespacesStep d (kind ++ userConfigSuffix ++ ".0.")
          (ipFilterStep d (kind ++ userConfigSuffix ++ ".0.") dto) = .ok dto2
      ∧ flattenFields fields (copyCreateOnly d (kind ++ userConfigSuffix ++ ".0.") dto2) = .ok tfo
      ∧ l = [tfo] := by
  rw [Flatten] at hF
  split at hF
  · cases hF
  · rename_i dto2 hns
    split at hF
    · rename_i fields helem
      rw [flattenObj] at hF
      split at hF
      · cases hF
      · cases hF
      · rename_i a b c
        cases hF
        split at c
        · cases c
        · cases c
        · rename_i tfo2 hne2 hys
          cases c
          exact ⟨fields, dto2, _, helem, hns, hys, rfl⟩
    · cases hF

theorem copyCreateOnly_getVal_ne (d : ResourceData) (pfx : String) (dto : List (String × Val))
    (a : String) (h1 : a ≠ "admin_username") (h2 : a ≠ "admin_password") :
    getVal (copyCreateOnly d pfx dto) a = getVal dto a := by
  rw [copyCreateOnly, createOnlyFields]
  simp only [List.foldl]
  cases d.getOk (pfx ++ "admin_username") <;> cases d.getOk (pfx ++ "admin_password") <;>
    simp only [getVal_setKey_ne _ _ _ _ h1, getVal_setKey_ne _ _ _ _ h2]

theorem copyCreateOnly_getVal_self (d : ResourceData) (pfx : String) (dto : List (String × Val))
    (k : String) (v : Val) (hk : k ∈ createOnlyFields) (h : d.getOk (pfx ++ k) = some v) :
    getVal (copyCreateOnly d pfx dto) k = some v := by
  rw [copyCreateOnly, createOnlyFields]
  simp only [List.foldl]
  rcases (by simpa [createOnlyFields] using hk : k = "admin_username" ∨ k = "admin_password")
    with hu | hp
  · subst hu
    rw [h]
    cases d.getOk (pfx ++ "admin_password") with
    | none => exact getVal_setKey_self _ _ _
    | some w =>
      rw [getVal_setKey_ne _ _ _ _ (by decide), getVal_setKey_self]
  · subst hp
    rw [h]
    cases d.getOk (pfx ++ "admin_username") <;> exact getVal_setKey_self _ _ _

theorem sortStep_getVal_ne (d : ResourceData) (path : String) (dto : List (String × Val))
    (key sortBy : String) (values : List Val) (a : String) (ha : a ≠ key) :
    getVal (sortStep d path dto key sortBy values) a = getVal dto a := by
  rw [sortStep]
  split
  · split
    · exact getVal_setKey_ne _ _ _ _ ha
    · rfl
  · rfl

theorem renameSuffix_getVal_ne (dto : List (String × Val)) (key suffix a : String)
    (ha : a ≠ key) (hs : a ≠ key ++ suffix) :
    getVal (renameSuffix dto key suffix) a = getVal dto a := by
  rw [renameSuffix]
  split
  · rfl
  · split
    · rw [getVal_delKey_ne _ _ _ ha, getVal_setKey_ne _ _ _ _ hs]
    · rfl

theorem assignAlias_getVal_ne (d : ResourceData) (path : String) (dto : List (String × Val))
    (key sortBy a : String) (ha : a ≠ key)
    (hstr : a ≠ key ++ "_string") (hobj : a ≠ key ++ "_object") :
    getVal (assignAlias d path dto key sortBy) a = getVal dto a := by
  rw [assignAlias]
  split
  · split
    · rfl
    · rw [renameSuffix_getVal_ne _ _ _ _ ha ?hsfx, sortStep_getVal_ne _ _ _ _ _ _ _ ha]
      case hsfx =>
        rw [aliasSuffix]
        split
        · exact hstr
        · split
          · exact hobj
          · simpa using ha
  · rfl

theorem ipFilterStep_getVal_ne (d : ResourceData) (pfx : String) (dto : List (String × Val))
    (a : String) (ha : a ≠ "ip_filter") (hstr : a ≠ "ip_filter_string")
    (hobj : a ≠ "ip_filter_object") :
    getVal (ipFilterStep d pfx dto) a = getVal dto a := by
  rw [ipFilterStep]
  split
  · exact assignAlias_getVal_ne _ _ _ _ _ _ ha hstr hobj
  · rfl

theorem namespacesStep_ok_getVal (d : ResourceData) (pfx : String) (dto dto2 : List (String × Val))
    (a : String) (ha : a ≠ "rules")
    (h : namespacesStep d pfx dto = .ok dto2) : getVal dto2 a = getVal dto a := by
  rw [namespacesStep] at h
  split at h
  · cases h; rfl
  · rename_i hdrill
    split at h
    · rename_i m hm
      cases h
      rw [modifyAtPath] at hm
      rw [if_neg (by decide)] at hm
      split at hm
      · cases hm
        exact getVal_setKey_ne _ _ _ _ ha
      · cases hm
        rfl
    · rename_i hm
      cases h; rfl
  · cases h

/-- At most one of three keys is populated in a DTO object. -/
def exclusiveThree (m : List (String × Val)) (a b c : String) : Prop :=
  ¬((getVal m a).isSome ∧ (getVal m b).isSome)
  ∧ ¬((getVal m a).isSome ∧ (getVal m c).isSome)
  ∧ ¬((getVal m b).isSome ∧ (getVal m c).isSome)

theorem aliasSuffix_cases (d : ResourceData) (path : String) (values : List Val) :
    aliasSuffix d path values = "" ∨ aliasSuffix d path values = "_string"
      ∨ aliasSuffix d path values = "_object" := by
  rw [aliasSuffix]
  split
  · exact Or.inr (Or.inl rfl)
  · split
    · exact Or.inr (Or.inr rfl)
    · exact Or.inl rfl

theorem exclusiveThree_of_two_none (m : List (String × Val)) (a b c : String)
    (hb : getVal m b = none) (hc : getVal m c = none) : exclusiveThree m a b c := by
  refine ⟨fun hh => ?_, fun hh => ?_, fun hh => ?_⟩
  · rw [hb] at hh; exact (by simpa using hh.2)
  · rw [hc] at hh; exact (by simpa using hh.2)
  · rw [hb] at hh; exact (by simpa using hh.1)

/-- After `assignAlias` on a DTO that honors the wire convention (neither
virtual alias key present), at most one of the three alias keys is
populated. -/
theorem assignAlias_exclusive (d : ResourceData) (path : String) (dto : List (String × Val))
    (key sortBy : String)
    (hs : getVal dto (key ++ "_string") = none) (ho : getVal dto (key ++ "_object") = none)
    (h1 : key ++ "_string" ≠ key) (h2 : key ++ "_object" ≠ key)
    (h3 : key ++ "_string" ≠ key ++ "_object") :
    exclusiveThree (assignAlias d path dto key sortBy) key (key ++ "_string") (key ++ "_object") := by
  rw [assignAlias]
  split
  · rename_i values hv
    split
    · exact exclusiveThree_of_two_none _ _ _ _ hs ho
    · have hSs : getVal (sortStep d path dto key sortBy values) (key ++ "_string") = none := by
        rw [sortStep_getVal_ne _ _ _ _ _ _ _ h1]; exact hs
      have hSo : getVal (sortStep d path dto key sortBy values) (key ++ "_object") = none := by
        rw [sortStep_getVal_ne _ _ _ _ _ _ _ h2]; exact ho
      rw [renameSuffix]
      split
      · exact exclusiveThree_of_two_none _ _ _ _ hSs hSo
      · rename_i hsfx
        split
        · rename_i v hkey
          rcases aliasSuffix_cases d path values with h0 | hstr | hobj
          · exact absurd h0 hsfx
          · rw [hstr]
            refine ⟨fun hh => ?_, fun hh => ?_, fun hh => ?_⟩
            · rw [getVal_delKey_self] at hh; simpa using hh.1
            · rw [getVal_delKey_self] at hh; simpa using hh.1
            · rw [getVal_delKey_ne _ _ _ h2, getVal_setKey_ne _ _ _ _ h3.symm, hSo] at hh
              simpa using hh.2
          · rw [hobj]
            refine ⟨fun hh => ?_, fun hh => ?_, fun hh => ?_⟩
            · rw [getVal_delKey_self] at hh; simpa using hh.1
            · rw [getVal_delKey_self] at hh; simpa using hh.1
            · rw [getVal_delKey_ne _ _ _ h1, getVal_setKey_ne _ _ _ _ h3, hSs] at hh
              simpa using hh.1
        · exact exclusiveThree_of_two_none _ _ _ _ hSs hSo
  · exact exclusiveThree_of_two_none _ _ _ _ hs ho

theorem ipFilterStep_exclusive (d : ResourceData) (pfx : String) (dto : List (String × Val))
    (hs : getVal dto "ip_filter_string" = none) (ho : getVal dto "ip_filter_object" = none) :
    exclusiveThree (ipFilterStep d pfx dto) "ip_filter" "ip_filter_string" "ip_filter_object" := by
  rw [ipFilterStep]
  split
  · have e1 : "ip_filter" ++ "_string" = "ip_filter_string" := rfl
    have e2 : "ip_filter" ++ "_object" = "ip_filter_object" := rfl
    have h := assignAlias_exclusive d (pfx ++ "ip_filter") dto "ip_filter" "network"
      (by rw [e1]; exact hs) (by rw [e2]; exact ho)
      (by rw [e1]; decide) (by rw [e2]; decide) (by rw [e1, e2]; decide)
    rw [e1, e2] at h
    exact h
  · exact exclusiveThree_of_two_none _ _ _ _ hs ho

/-! ### Claim theorems -/

/-- Schemas and inputs used by concrete claim instances. -/
def strSchema : Schema := .mk .string false 0 .empty

def intSchema : Schema := .mk .int false 0 .empty

def singletonObjSchema : Schema := .mk .list false 1 (.resource [.mk "x" strSchema])

def emptyRes : ResourceData := { rawConfig := .null, state := [], changed := [], isNew := false }

/-- A `maxItems == 1` object-list state whose single declared element has
every property unset (`foo {}` in the configuration). -/
def emptyElemState : StateCompose :=
  { key := "cfg", path := "p", config := .seq [.obj [("x", Cty.null)]], resource := emptyRes }

def emptyElemInner : StateCompose :=
  { key := "cfg", path := "p.0", config := .obj [("x", Cty.null)], resource := emptyRes }

/-- Claim C1 (code bug evidence): the claim — per spec §4.3 and the source's
own comment "If an object is not empty" — says elements whose recursive
expansion is empty are dropped, so a `maxItems==1` field whose only declared
element expands to nothing contributes no key. The code instead emits the
empty object: `expandObj` always returns a non-nil map, and a map boxed into
`any` is a non-nil interface, so the `exp != nil` filter at
converters.go:211 never drops an expanded object. This theorem evaluates the
code at the failing input: one declared element, all of its fields null. -/
theorem c1_empty_singleton_element_emitted :
    expandAttr singletonObjSchema emptyElemState = .ok (some (.map [])) := by
  have hx : expandAttr strSchema (propState emptyElemInner "x") = .ok none := by
    rw [strSchema, expandAttr_string]
    rfl
  have hf1 : expandField1 "x" strSchema emptyElemInner = .ok none :=
    expandField1_none _ _ _ (by rfl) hx
  have hfields : expandFields [SField.mk "x" strSchema] emptyElemInner = .ok [] :=
    expandFields_cons_none _ _ _ _ _ hf1 (expandFields_nil _)
  have hitems : expandItems [SField.mk "x" strSchema] [emptyElemInner] = .ok [.map []] :=
    expandItems_cons _ _ _ _ _ hfields (expandItems_nil _)
  rw [singletonObjSchema]
  rw [expandAttr_objlist false 1 _ _ [.map []] (by rfl) ?hi]
  case hi =>
    rw [show listItems emptyElemState = [emptyElemInner] from rfl]
    exact hitems
  rfl

/-- Claim C2 (counterexample): a DTO value of the wrong kind at an
Int-declared field makes `Flatten`'s recursion panic on the bare
`data.(json.Number)` type assertion — the call crashes instead of returning
an unrecoverable error carrying the field name, contradicting the claim at
this input. -/
theorem c2_counterexample :
    flattenObj [.mk "n" intSchema] [("n", .str "x")]
      = .error (.crash "interface conversion: interface is not json.Number") := by
  have hA : flattenAttr intSchema (.str "x")
      = .error (.crash "interface conversion: interface is not json.Number") := by
    rw [intSchema, flattenAttr_int]
    rfl
  have h1 : flattenField1 "n" intSchema [("n", .str "x")]
      = .error (wrapErr "n" (.crash "interface conversion: interface is not json.Number")) :=
    flattenField1_error _ _ _ _ _ (by rfl) (by intro h; cases h) hA
  rw [flattenObj, flattenFields_cons_error _ _ _ _ _ h1]
  rfl

theorem castString_not_str (v : Val) (hv : ∀ s, v ≠ .str s) :
    castString v = .error (.err "invalid type") := by
  cases v <;> first | exact absurd rfl (hv _) | rfl

theorem castBool_not_bool (v : Val) (hv : ∀ b, v ≠ .bool b) :
    castBool v = .error (.err "invalid type") := by
  cases v <;> first | exact absurd rfl (hv _) | rfl

theorem jsonInt_not_num (v : Val) (hv : ∀ q, v ≠ .jsonNum q) :
    jsonInt v = .error (.crash "interface conversion: interface is not json.Number") := by
  cases v <;> first | exact absurd rfl (hv _) | rfl

theorem jsonFloat_not_num (v : Val) (hv : ∀ q, v ≠ .jsonNum q) :
    jsonFloat v = .error (.crash "interface conversion: interface is not json.Number") := by
  cases v <;> first | exact absurd rfl (hv _) | rfl

theorem flattenAttr_scalarlist_nonlist (fn : Bool) (mi : Nat) (sc : Schema) (v : Val)
    (hv : ∀ xs, v ≠ .list xs) :
    flattenAttr (.mk .list fn mi (.scalar sc)) v
      = .error (.crash "interface conversion: interface is not a slice") := by
  cases v <;> first
  | exact absurd rfl (hv _)
  | (rw [flattenAttr]; exact fun xs hh => nomatch hh)

/-- Claim C2 (amended): for String- and Bool-declared fields a DTO value of
the wrong kind aborts the whole flatten with an unrecoverable *returned*
error that carries the failing field's name, and nothing is silently
coerced; but for Int- and Float-declared fields a non-number value, and for
a list-of-scalars field a non-array value, the code panics on a bare type
assertion (a crash) instead of returning an error. -/
theorem c2_amended (k : String) (fn : Bool) (mi : Nat) (el : SchemaElem) (sc : Schema)
    (v1 v2 v3 v4 : Val)
    (h1n : v1 ≠ .null) (h1s : ∀ s, v1 ≠ .str s)
    (h2n : v2 ≠ .null) (h2b : ∀ b, v2 ≠ .bool b)
    (h3n : v3 ≠ .null) (h3q : ∀ q, v3 ≠ .jsonNum q)
    (h4n : v4 ≠ .null) (h4l : ∀ xs, v4 ≠ .list xs) :
    flattenObj [.mk k (Schema.mk .string fn mi el)] [(k, v1)]
        = .error (.err ("\"" ++ k ++ "\" field conversion error: " ++ "invalid type"))
    ∧ flattenObj [.mk k (Schema.mk .bool fn mi el)] [(k, v2)]
        = .error (.err ("\"" ++ k ++ "\" field conversion error: " ++ "invalid type"))
    ∧ flattenObj [.mk k (Schema.mk .int fn mi el)] [(k, v3)]
        = .error (.crash "interface conversion: interface is not json.Number")
    ∧ flattenObj [.mk k (Schema.mk .float fn mi el)] [(k, v3)]
        = .error (.crash "interface conversion: interface is not json.Number")
    ∧ flattenObj [.mk k (Schema.mk .list fn mi (.scalar sc))] [(k, v4)]
        = .error (.crash "interface conversion: interface is not a slice") := by
  have hget : ∀ v : Val, getVal [(k, v)] k = some v := fun v => by
    rw [getVal, if_pos rfl]
  refine ⟨?_, ?_, ?_, ?_, ?_⟩
  · have hA := castString_not_str v1 h1s
    rw [← flattenAttr_string fn mi el] at hA
    have hf := flattenField1_error k _ [(k, v1)] v1 _ (hget v1) h1n hA
    rw [flattenObj, flattenFields_cons_error _ _ _ _ _ hf]
    rfl
  · have hA := castBool_not_bool v2 h2b
    rw [← flattenAttr_bool fn mi el] at hA
    have hf := flattenField1_error k _ [(k, v2)] v2 _ (hget v2) h2n hA
    rw [flattenObj, flattenFields_cons_error _ _ _ _ _ hf]
    rfl
  · have hA := jsonInt_not_num v3 h3q
    rw [← flattenAttr_int fn mi el] at hA
    have hf := flattenField1_error k _ [(k, v3)] v3 _ (hget v3) h3n hA
    rw [flattenObj, flattenFields_cons_error _ _ _ _ _ hf]
    rfl
  · have hA := jsonFloat_not_num v3 h3q
    rw [← flattenAttr_float fn mi el] at hA
    have hf := flattenField1_error k _ [(k, v3)] v3 _ (hget v3) h3n hA
    rw [flattenObj, flattenFields_cons_error _ _ _ _ _ hf]
    rfl
  · have hA := flattenAttr_scalarlist_nonlist fn mi sc v4 h4l
    have hf := flattenField1_error k _ [(k, v4)] v4 _ (hget v4) h4n hA
    rw [flattenObj, flattenFields_cons_error _ _ _ _ _ hf]
    rfl

/-- Witness for C2 (amended) at a concrete field and concrete mismatched
values. -/
theorem c2_amended_witness :
    flattenObj [.mk "n" (Schema.mk .string false 0 .empty)] [("n", .bool true)]
        = .error (.err ("\"" ++ "n" ++ "\" field conversion error: " ++ "invalid type"))
    ∧ flattenObj [.mk "n" (Schema.mk .bool false 0 .empty)] [("n", .str "x")]
        = .error (.err ("\"" ++ "n" ++ "\" field conversion error: " ++ "invalid type"))
    ∧ flattenObj [.mk "n" (Schema.mk .int false 0 .empty)] [("n", .str "x")]
        = .error (.crash "interface conversion: interface is not json.Number")
    ∧ flattenObj [.mk "n" (Schema.mk .float false 0 .empty)] [("n", .str "x")]
        = .error (.crash "interface conversion: interface is not json.Number")
    ∧ flattenObj [.mk "n" (Schema.mk .list false 0 (.scalar strSchema))] [("n", .str "x")]
        = .error (.crash "interface conversion: interface is not a slice") :=
  c2_amended "n" false 0 .empty strSchema (.bool true) (.str "x") (.str "x") (.str "x")
    (fun h => nomatch h) (fun _ h => nomatch h)
    (fun h => nomatch h) (fun _ h => nomatch h)
    (fun h => nomatch h) (fun _ h => nomatch h)
    (fun h => nomatch h) (fun _ h => nomatch h)

def setStrSchema : Schema := .mk .set false 0 (.scalar strSchema)

/-- An unordered-set field declared as an explicit empty sequence, with its
materialized set value unchanged since the prior apply. -/
def emptySetState : StateCompose :=
  { key := "f", path := "p", config := .seq []
    resource := { rawConfig := .null, state := [("p", .set [])], changed := [], isNew := false } }

/-- Claim C3 (counterexample): the claim says an explicit empty sequence
always yields the DTO array `[]` for the field; but when the field has no
pending change (`HasChange` is false — e.g. the empty set was already
applied, or equals the zero value), `expandAttr` contributes no key at
all: `hasValue()` conflates the explicit empty sequence with an absent
field, exactly the conflation spec §9 warns about. -/
theorem c3_counterexample : expandAttr setStrSchema emptySetState = .ok none := by
  rw [setStrSchema]
  exact expandAttr_set_skip _ _ _ _ (by decide)

/-- Claim C3 (amended): what the code keys on is `HasChange`, not
empty-versus-omitted. With a pending change, an explicit empty sequence and
an omitted field BOTH emit the DTO array `[]`; with no pending change both
emit no key — so the two configurations are never distinguishable in the
outgoing DTO. -/
theorem c3_amended (fn : Bool) (mi : Nat) (el : SchemaElem) (k p : String)
    (d dc : ResourceData) (vs : List Val)
    (hch : d.hasChangePath p = true) (hval : d.get p = .set vs)
    (hnc : dc.hasChangePath p = false) :
    expandAttr (.mk .set fn mi el) { key := k, path := p, config := .seq [], resource := d }
        = .ok (some (.list []))
    ∧ expandAttr (.mk .set fn mi el) { key := k, path := p, config := .null, resource := d }
        = .ok (some (.list []))
    ∧ expandAttr (.mk .set fn mi el) { key := k, path := p, config := .seq [], resource := dc }
        = .ok none
    ∧ expandAttr (.mk .set fn mi el) { key := k, path := p, config := .null, resource := dc }
        = .ok none := by
  refine ⟨?_, ?_, ?_, ?_⟩
  · refine expandAttr_set_items fn mi el _ [] ?_ ?_
    · simp [StateCompose.hasValue, StateCompose.hasChange, hch]
    · rw [setItems]
      simp only [Cty.isNull, Bool.false_eq_true, if_false, Cty.asValueSlice]
      rw [show StateCompose.value { key := k, path := p, config := .seq [], resource := d }
          = .set vs from hval]
      simp [List.mapM.loop]
  · refine expandAttr_set_items fn mi el _ [] ?_ ?_
    · simp [StateCompose.hasValue, StateCompose.hasChange, hch]
    · rw [setItems]
      simp [Cty.isNull]
  · exact expandAttr_set_skip fn mi el _
      (by simp [StateCompose.hasValue, StateCompose.hasChange, hnc, Cty.canIterate, Cty.lengthInt, Cty.isNull])
  · exact expandAttr_set_skip fn mi el _
      (by simp [StateCompose.hasValue, StateCompose.hasChange, hnc, Cty.isNull])

/-- Witness for C3 (amended) at concrete stores. -/
theorem c3_amended_witness :
    expandAttr (.mk .set false 0 (.scalar strSchema))
        { key := "f", path := "p", config := .seq []
          resource := { rawConfig := .null, state := [("p", .set [.str "a"])],
                        changed := ["p"], isNew := false } }
      = .ok (some (.list [])) :=
  (c3_amended false 0 (.scalar strSchema) "f" "p"
    { rawConfig := .null, state := [("p", .set [.str "a"])], changed := ["p"], isNew := false }
    emptyRes [.str "a"] (by decide) rfl (by decide)).1

/-- Claim C4 (confirmed): at every depth, a field the user never wrote
(null/absent in the raw config at its path) whose materialized value has no
pending change since the prior apply contributes no key to the DTO object
built by `expandObj` — whatever the field's schema kind. -/
theorem c4_absent_unchanged_omitted (fields : List SField) (st : StateCompose) (k : String)
    (m : List (String × Val))
    (hnull : (propState st k).config.isNull = true)
    (hunch : (propState st k).hasChange = false)
    (hok : expandFields fields st = .ok m) :
    getVal m k = none :=
  expandFields_getVal_none_of_null_unchanged fields st k m hnull hunch hok

/-- A parent state whose single property `g` is declared null. -/
def c4State : StateCompose :=
  { key := "cfg", path := "p", config := .obj [("g", Cty.null)], resource := emptyRes }

/-- Witness for C4 at a concrete schema and store. -/
theorem c4_witness :
    expandFields [.mk "g" strSchema] c4State = .ok [] ∧ getVal ([] : List (String × Val)) "g" = none := by
  have hA : expandAttr strSchema (propState c4State "g") = .ok none := by
    rw [strSchema, expandAttr_string]
    rfl
  have h1 : expandField1 "g" strSchema c4State = .ok none :=
    expandField1_none _ _ _ (by rfl) hA
  have hok : expandFields [.mk "g" strSchema] c4State = .ok [] :=
    expandFields_cons_none _ _ _ _ _ h1 (expandFields_nil _)
  exact ⟨hok, c4_absent_unchanged_omitted [.mk "g" strSchema] c4State "g" []
    (by decide) (by decide) hok⟩

/-- Claim C8 (confirmed): a `forceNew` field is dropped from the outgoing
DTO whenever the resource already exists (`IsNewResource` false) — whatever
value it has; and on initial creation it is processed normally, its DTO
entry being exactly what `expandField1` (the per-field step, i.e. the
wrapped `expandAttr`) produces. -/
theorem c8_force_new (fields : List SField) (k : String) (sub : Schema)
    (hnodup : (fields.map SField.name).Nodup) (hmem : SField.mk k sub ∈ fields)
    (hfn : sub.forceNew = true) :
    (∀ st m, st.resource.isNew = false → expandFields fields st = .ok m → getVal m k = none)
    ∧ (∀ st m v, st.resource.isNew = true → expandAttr sub (propState st k) = .ok (some v) →
        expandFields fields st = .ok m → getVal m k = some v) := by
  constructor
  · intro st m hnew hok
    induction fields generalizing m with
    | nil => rw [expandFields_nil] at hok; cases hok; rfl
    | cons f rest ih =>
      obtain ⟨k2, sub2⟩ := f
      have hnodup2 : (rest.map SField.name).Nodup := by simpa using hnodup.of_cons
      rw [expandFields] at hok
      rcases List.mem_cons.mp hmem with hhead | htail
      · cases hhead
        rw [expandField1_skip _ _ _ (by rw [hfn, hnew]; rfl)] at hok
        cases h2 : expandFields rest st with
        | error e => rw [h2] at hok; cases hok
        | ok tl =>
          rw [h2] at hok
          cases hok
          refine expandFields_getVal_not_mem rest st k _ ?_ h2
          intro hmemname
          have h3 := hnodup
          simp only [List.map_cons, SField.name, List.nodup_cons] at h3
          exact h3.1 hmemname
      · have hk2 : k2 ≠ k := by
          intro hh
          subst hh
          have hmemname : k2 ∈ rest.map SField.name := List.mem_map.mpr ⟨_, htail, rfl⟩
          have h3 := hnodup
          simp only [List.map_cons, SField.name, List.nodup_cons] at h3
          exact h3.1 hmemname
        cases h1 : expandField1 k2 sub2 st with
        | error e => rw [h1] at hok; cases hok
        | ok hd =>
          rw [h1] at hok
          cases h2 : expandFields rest st with
          | error e => rw [h2] at hok; cases hok
          | ok tl =>
            rw [h2] at hok
            cases hd with
            | none => cases hok; exact ih hnodup2 htail _ h2
            | some pr =>
              cases hok
              rw [getVal, if_neg (by rw [expandField1_fst k2 sub2 st pr h1]; exact hk2)]
              exact ih hnodup2 htail _ h2
  · intro st m v hnew hA hok
    refine expandFields_getVal_mem_some fields st k sub v m hnodup hmem ?_ hok
    exact expandField1_some _ _ _ _ (by rw [hnew]; simp) hA

def fnSchema : Schema := .mk .string true 0 .empty

def c8Old : StateCompose :=
  { key := "cfg", path := "p", config := .obj [("g", Cty.str "v")]
    resource := { rawConfig := .null, state := [("p.g", .str "v")], changed := [], isNew := false } }

def c8New : StateCompose :=
  { key := "cfg", path := "p", config := .obj [("g", Cty.str "v")]
    resource := { rawConfig := .null, state := [("p.g", .str "v")], changed := [], isNew := true } }

/-- Witness for C8: the same declared `forceNew` field is dropped on an
update and emitted on create. -/
theorem c8_witness :
    (expandFields [.mk "g" fnSchema] c8Old = .ok []
      ∧ getVal ([] : List (String × Val)) "g" = none)
    ∧ (expandFields [.mk "g" fnSchema] c8New = .ok [("g", .str "v")]
      ∧ getVal [("g", Val.str "v")] "g" = some (.str "v")) := by
  have hthm := c8_force_new [.mk "g" fnSchema] "g" fnSchema (by simp)
    (List.mem_singleton.mpr rfl) rfl
  have hokOld : expandFields [.mk "g" fnSchema] c8Old = .ok [] := by
    rw [expandFields, expandField1_skip _ _ _ (by decide), expandFields_nil]
  have hA : expandAttr fnSchema (propState c8New "g") = .ok (some (.str "v")) := by
    rw [fnSchema, expandAttr_string]
    rfl
  have hokNew : expandFields [.mk "g" fnSchema] c8New = .ok [("g", .str "v")] := by
    have h1 : expandField1 "g" fnSchema c8New = .ok (some ("g", .str "v")) :=
      expandField1_some _ _ _ _ (by decide) hA
    exact expandFields_cons_some _ _ _ _ _ _ h1 (expandFields_nil _)
  exact ⟨⟨hokOld, hthm.1 c8Old [] rfl hokOld⟩,
         ⟨hokNew, hthm.2 c8New [("g", .str "v")] (.str "v") rfl hA hokNew⟩⟩

/-- Claim C6 (confirmed): when the incoming DTO lacks a create-only field's
key and the prior materialized state records a (string) value for it, the
local tree produced by `Flatten` carries that prior value unchanged — for
every field of the static create-only list. -/
theorem c6_create_only_carry_over (kind : String) (sch : Schema) (fields : List SField)
    (d : ResourceData) (dto : List (String × Val)) (k s : String) (fn : Bool) (mi : Nat)
    (el : SchemaElem) (tfo : List (String × Val))
    (hsch : sch.elem = .resource fields)
    (hnodup : (fields.map SField.name).Nodup)
    (hmem : SField.mk k (Schema.mk .string fn mi el) ∈ fields)
    (hk : k ∈ createOnlyFields)
    (hprior : d.getOk (kind ++ userConfigSuffix ++ ".0." ++ k) = some (.str s))
    (hdto : getVal dto k = none)
    (hF : Flatten kind sch d dto = .ok (some [tfo])) :
    getVal tfo k = some (.str s) := by
  obtain ⟨fields2, dto2, tfo2, helem2, hns, hff, heq⟩ := Flatten_ok_inv kind sch d dto [tfo] hF
  rw [hsch] at helem2
  cases helem2
  have htt : tfo = tfo2 := by simpa using heq
  have hcp : getVal (copyCreateOnly d (kind ++ userConfigSuffix ++ ".0.") dto2) k
      = some (.str s) :=
    copyCreateOnly_getVal_self d _ dto2 k _ hk hprior
  have hA : flattenAttr (Schema.mk .string fn mi el) (.str s) = .ok (.str s) := by
    rw [flattenAttr_string]
    rfl
  have hf1 := flattenField1_some k (Schema.mk .string fn mi el) _ _ _ hcp
    (fun hh => nomatch hh) hA
  rw [htt]
  exact flattenFields_getVal_mem_some fields _ k _ (.str s) tfo2 hnodup hmem hf1 hff

/-- Claim C10 (confirmed): the create-only copy runs after the DTO is built
and overwrites unconditionally, so whenever the prior local state holds a
(string) value for a create-only field, the flattened result carries the
prior value even when the incoming DTO does contain that key — an
API-returned value can never overwrite the locally stored one. -/
theorem c10_create_only_overwrite (kind : String) (sch : Schema) (fields : List SField)
    (d : ResourceData) (dto : List (String × Val)) (k s : String) (fn : Bool) (mi : Nat)
    (el : SchemaElem) (tfo : List (String × Val)) (w : Val)
    (hsch : sch.elem = .resource fields)
    (hnodup : (fields.map SField.name).Nodup)
    (hmem : SField.mk k (Schema.mk .string fn mi el) ∈ fields)
    (hk : k ∈ createOnlyFields)
    (hprior : d.getOk (kind ++ userConfigSuffix ++ ".0." ++ k) = some (.str s))
    (hdto : getVal dto k = some w)
    (hF : Flatten kind sch d dto = .ok (some [tfo])) :
    getVal tfo k = some (.str s) := by
  obtain ⟨fields2, dto2, tfo2, helem2, hns, hff, heq⟩ := Flatten_ok_inv kind sch d dto [tfo] hF
  rw [hsch] at helem2
  cases helem2
  have htt : tfo = tfo2 := by simpa using heq
  have hcp : getVal (copyCreateOnly d (kind ++ userConfigSuffix ++ ".0.") dto2) k
      = some (.str s) :=
    copyCreateOnly_getVal_self d _ dto2 k _ hk hprior
  have hA : flattenAttr (Schema.mk .string fn mi el) (.str s) = .ok (.str s) := by
    rw [flattenAttr_string]
    rfl
  have hf1 := flattenField1_some k (Schema.mk .string fn mi el) _ _ _ hcp
    (fun hh => nomatch hh) hA
  rw [htt]
  exact flattenFields_getVal_mem_some fields _ k _ (.str s) tfo2 hnodup hmem hf1 hff

def adminPwField : SField := .mk "admin_password" (Schema.mk .string false 0 .empty)

def c6Schema : Schema := .mk .list false 1 (.resource [adminPwField])

def c6Res : ResourceData :=
  { rawConfig := .null, state := [("s_user_config.0.admin_password", .str "secret123")],
    changed := [], isNew := false }

/-- Forward evaluation of `Flatten` from its pipeline stages. -/
theorem Flatten_eval (kind : String) (sch : Schema) (d : ResourceData)
    (dto dto2 : List (String × Val)) (fields : List SField) (tfo : List (String × Val))
    (hsch : sch.elem = .resource fields)
    (hns : namespacesStep d (kind ++ userConfigSuffix ++ ".0.")
      (ipFilterStep d (kind ++ userConfigSuffix ++ ".0.") dto) = .ok dto2)
    (hobj : flattenObj fields (copyCreateOnly d (kind ++ userConfigSuffix ++ ".0.") dto2)
      = .ok (some tfo)) :
    Flatten kind sch d dto = .ok (some [tfo]) := by
  rw [Flatten]
  split
  · rename_i e he
    rw [hns] at he
    cases he
  · rename_i dto2x hdto2
    rw [hns] at hdto2
    cases hdto2
    split
    · rename_i fieldsx hf
      rw [hsch] at hf
      cases hf
      rw [hobj]
    · rename_i hnothing
      rw [hsch] at hnothing
      exact absurd rfl (hnothing fields)

theorem adminPw_flattenObj :
    flattenObj [adminPwField] [("admin_password", .str "secret123")]
      = .ok (some [("admin_password", .str "secret123")]) := by
  have hA : flattenAttr (Schema.mk .string false 0 .empty) (.str "secret123")
      = .ok (.str "secret123") := by
    rw [flattenAttr_string]
    rfl
  have hf1 : flattenField1 "admin_password" (Schema.mk .string false 0 .empty)
      [("admin_password", .str "secret123")] = .ok (some ("admin_password", .str "secret123")) :=
    flattenField1_some "admin_password" _ _ (.str "secret123") (.str "secret123")
      (by rfl) (fun hh => nomatch hh) hA
  rw [show [adminPwField] = [SField.mk "admin_password" (Schema.mk .string false 0 .empty)]
    from rfl]
  rw [flattenObj, flattenFields_cons_some _ _ _ _ _ _ hf1 (flattenFields_nil _)]

/-- Witness for C6: a DTO without `admin_password`, a prior store holding
`secret123`, and the resulting local tree carrying it unchanged. -/
theorem c6_witness :
    Flatten "s" c6Schema c6Res [] = .ok (some [[("admin_password", .str "secret123")]])
    ∧ getVal [("admin_password", Val.str "secret123")] "admin_password"
        = some (.str "secret123") := by
  have hF : Flatten "s" c6Schema c6Res [] = .ok (some [[("admin_password", .str "secret123")]]) :=
    Flatten_eval "s" c6Schema c6Res [] [] [adminPwField] _ rfl rfl
      (by rw [show copyCreateOnly c6Res ("s" ++ userConfigSuffix ++ ".0.") []
                = [("admin_password", .str "secret123")] from rfl]
          exact adminPw_flattenObj)
  refine ⟨hF, ?_⟩
  exact c6_create_only_carry_over "s" c6Schema [adminPwField] c6Res [] "admin_password"
    "secret123" false 0 .empty _ rfl (by simp) (List.mem_singleton.mpr rfl)
    (by simp [createOnlyFields]) rfl rfl hF

/-- Witness for C10: the DTO does contain `admin_password` (an API-returned
value) and the prior store value still wins. -/
theorem c10_witness :
    Flatten "s" c6Schema c6Res [("admin_password", .str "apiValue")]
        = .ok (some [[("admin_password", .str "secret123")]])
    ∧ getVal [("admin_password", Val.str "secret123")] "admin_password"
        = some (.str "secret123") := by
  have hF : Flatten "s" c6Schema c6Res [("admin_password", .str "apiValue")]
      = .ok (some [[("admin_password", .str "secret123")]]) :=
    Flatten_eval "s" c6Schema c6Res [("admin_password", .str "apiValue")]
      [("admin_password", .str "apiValue")] [adminPwField] _ rfl rfl
      (by rw [show copyCreateOnly c6Res ("s" ++ userConfigSuffix ++ ".0.")
                  [("admin_password", .str "apiValue")]
                = [("admin_password", .str "secret123")] from rfl]
          exact adminPw_flattenObj)
  refine ⟨hF, ?_⟩
  exact c10_create_only_overwrite "s" c6Schema [adminPwField] c6Res
    [("admin_password", .str "apiValue")] "admin_password" "secret123" false 0 .empty _
    (.str "apiValue") rfl (by simp) (List.mem_singleton.mpr rfl)
    (by simp [createOnlyFields]) rfl rfl hF

theorem flattenAttr_set_scalar (fn : Bool) (mi : Nat) (sc : Schema) (xs vs : List Val)
    (h : flattenScalars sc xs = .ok vs) :
    flattenAttr (.mk .set fn mi (.scalar sc)) (.list xs) = .ok (.set vs) := by
  rw [flattenAttr, h]

theorem flattenAttr_resource_list (fn : Bool) (mi : Nat) (fields : List SField)
    (xs vs : List Val) (h : flattenItems fields xs = .ok vs) :
    flattenAttr (.mk .list fn mi (.resource fields)) (.list xs) = .ok (.list vs) := by
  rw [flattenAttr]
  · rw [h]
  all_goals exact fun hh => nomatch hh

def netField : SField := .mk "network" strSchema

def ipObjListSchema : Schema := .mk .list false 0 (.resource [netField])

def c7Fields : List SField := [.mk "ip_filter_object" ipObjListSchema]

def c7Schema : Schema := .mk .list false 1 (.resource c7Fields)

/-- Prior local state: the object list under the `_object` alias in order
`[B, A]` (by the `network` key). -/
def c7Res (ka kb : String) : ResourceData :=
  { rawConfig := .null
    state := [("s_user_config.0.ip_filter_object",
      .list [.map [("network", .str kb)], .map [("network", .str ka)]])]
    changed := [], isNew := false }

/-- The API returned the same two elements in order `[A, B]`. -/
def c7Dto (ka kb : String) : List (String × Val) :=
  [("ip_filter", .list [.map [("network", .str ka)], .map [("network", .str kb)]])]

theorem c7_sort (ka kb : String) (hne : ka ≠ kb) :
    sortByKey "network" (.list [.map [("network", .str kb)], .map [("network", .str ka)]])
      (.list [.map [("network", .str ka)], .map [("network", .str kb)]])
    = .list [.map [("network", .str kb)], .map [("network", .str ka)]] := by
  have h1 : (ka = kb) = False := by simp [hne]
  have h2 : (kb = ka) = False := by
    simp only [eq_iff_iff, iff_false]
    exact fun hh => hne hh.symm
  rw [sortByKey]
  simp [objKey, getVal, h1, h2, List.filter, List.filterMap]

theorem c7_ipstep (ka kb : String) (hne : ka ≠ kb) :
    ipFilterStep (c7Res ka kb) ("s" ++ userConfigSuffix ++ ".0.") (c7Dto ka kb)
      = [("ip_filter_object",
          .list [.map [("network", .str kb)], .map [("network", .str ka)]])] := by
  rw [ipFilterStep, if_pos (by rfl)]
  rw [assignAlias]
  rw [show getVal (c7Dto ka kb) "ip_filter"
      = some (.list [.map [("network", .str ka)], .map [("network", .str kb)]]) from rfl]
  simp only []
  rw [if_neg (by simp)]
  rw [sortStep]
  rw [show ([Val.map [("network", .str ka)], .map [("network", .str kb)]] : List Val).head?
      = some (.map [("network", .str ka)]) from rfl]
  rw [show (c7Res ka kb).getOk (("s" ++ userConfigSuffix ++ ".0." ++ "ip_filter") ++ "_object")
      = some (.list [.map [("network", .str kb)], .map [("network", .str ka)]]) from rfl]
  simp only []
  rw [c7_sort ka kb hne]
  rw [show aliasSuffix (c7Res ka kb) ("s" ++ userConfigSuffix ++ ".0." ++ "ip_filter")
        [.map [("network", .str ka)], .map [("network", .str kb)]]
      = "_object" from rfl]
  rw [renameSuffix, if_neg (by decide)]
  rw [show getVal (setKey (c7Dto ka kb) "ip_filter"
        (.list [.map [("network", .str kb)], .map [("network", .str ka)]])) "ip_filter"
      = some (.list [.map [("network", .str kb)], .map [("network", .str ka)]])
      from getVal_setKey_self _ _ _]
  rfl

theorem c7_netObj (x : String) :
    flattenFields [netField] [("network", .str x)] = .ok [("network", .str x)] := by
  have hA : flattenAttr strSchema (.str x) = .ok (.str x) := by
    rw [strSchema, flattenAttr_string]
    rfl
  have h1 : flattenField1 "network" strSchema [("network", .str x)]
      = .ok (some ("network", .str x)) :=
    flattenField1_some "network" _ _ (.str x) (.str x) (by rfl) (fun hh => nomatch hh) hA
  rw [show [netField] = [SField.mk "network" strSchema] from rfl]
  exact flattenFields_cons_some _ _ _ _ _ _ h1 (flattenFields_nil _)

/-- Claim C7 (confirmed, spec-modelled `sortByKey`): for the aliased
object-list field with ordering key `network`, prior local order `[B, A]`
and a DTO returning `[A, B]`, `Flatten` yields local order `[B, A]` — the
previously declared order, not the API's return order. -/
theorem c7_ordering_reconciliation (ka kb : String) (hne : ka ≠ kb) :
    Flatten "s" c7Schema (c7Res ka kb) (c7Dto ka kb)
      = .ok (some [[("ip_filter_object",
          .list [.map [("network", .str kb)], .map [("network", .str ka)]])]]) := by
  have hitems : flattenItems [netField]
      [.map [("network", .str kb)], .map [("network", .str ka)]]
      = .ok [.map [("network", .str kb)], .map [("network", .str ka)]] := by
    have hb := flattenItems_cons_keep [netField] [("network", .str ka)] [] ("network", .str ka)
      [] [] (c7_netObj ka) (flattenItems_nil _)
    exact flattenItems_cons_keep [netField] [("network", .str kb)] _ ("network", .str kb)
      [] _ (c7_netObj kb) hb
  have hA : flattenAttr ipObjListSchema
      (.list [.map [("network", .str kb)], .map [("network", .str ka)]])
      = .ok (.list [.map [("network", .str kb)], .map [("network", .str ka)]]) := by
    rw [ipObjListSchema]
    exact flattenAttr_resource_list _ _ _ _ _ hitems
  have hf1 : flattenField1 "ip_filter_object" ipObjListSchema
      [("ip_filter_object", .list [.map [("network", .str kb)], .map [("network", .str ka)]])]
      = .ok (some ("ip_filter_object",
          .list [.map [("network", .str kb)], .map [("network", .str ka)]])) :=
    flattenField1_some "ip_filter_object" ipObjListSchema _
      (.list [.map [("network", .str kb)], .map [("network", .str ka)]])
      (.list [.map [("network", .str kb)], .map [("network", .str ka)]])
      (by rfl) (fun hh => nomatch hh) hA
  have hobj : flattenObj c7Fields
      [("ip_filter_object", .list [.map [("network", .str kb)], .map [("network", .str ka)]])]
      = .ok (some [("ip_filter_object",
          .list [.map [("network", .str kb)], .map [("network", .str ka)]])]) := by
    rw [show c7Fields = [SField.mk "ip_filter_object" ipObjListSchema] from rfl]
    rw [flattenObj, flattenFields_cons_some _ _ _ _ _ _ hf1 (flattenFields_nil _)]
  refine Flatten_eval "s" c7Schema (c7Res ka kb) (c7Dto ka kb)
    [("ip_filter_object", .list [.map [("network", .str kb)], .map [("network", .str ka)]])]
    c7Fields _ rfl ?_ ?_
  · rw [c7_ipstep ka kb hne]
    rfl
  · rw [show copyCreateOnly (c7Res ka kb) ("s" ++ userConfigSuffix ++ ".0.")
        [("ip_filter_object", .list [.map [("network", .str kb)], .map [("network", .str ka)]])]
        = [("ip_filter_object",
            .list [.map [("network", .str kb)], .map [("network", .str ka)]])] from rfl]
    exact hobj

/-- Witness for C7 at the concrete networks `a` and `b`. -/
theorem c7_witness :
    Flatten "s" c7Schema (c7Res "a" "b") (c7Dto "a" "b")
      = .ok (some [[("ip_filter_object",
          .list [.map [("network", .str "b")], .map [("network", .str "a")]])]]) :=
  c7_ordering_reconciliation "a" "b" (by decide)

def c5Fields : List SField :=
  [.mk "ip_filter" setStrSchema,
   .mk "ip_filter_string" setStrSchema,
   .mk "ip_filter_object" ipObjListSchema]

def c5Schema : Schema := .mk .list false 1 (.resource c5Fields)

/-- Prior local state storing the field under the `_object`-shaped alias. -/
def c5Res : ResourceData :=
  { rawConfig := .null
    state := [("s_user_config.0.ip_filter_object", .list [.map [("network", .str "a")]])]
    changed := [], isNew := false }

/-- The spec's test DTO: `ip_filter` holds a non-empty array of strings. -/
def c5Dto : List (String × Val) := [("ip_filter", .list [.str "a", .str "b"])]

theorem c5_scalars :
    flattenScalars strSchema [.str "a", .str "b"] = .ok [.str "a", .str "b"] := by
  have ha : flattenAttr strSchema (.str "a") = .ok (.str "a") := by
    rw [strSchema, flattenAttr_string]
    rfl
  have hb : flattenAttr strSchema (.str "b") = .ok (.str "b") := by
    rw [strSchema, flattenAttr_string]
    rfl
  exact flattenScalars_cons _ _ _ _ _ ha (flattenScalars_cons _ _ _ _ _ hb (flattenScalars_nil _))

/-- Claim C5 (counterexample): with the spec's own test input — DTO
`ip_filter` a non-empty array (of strings, exactly as §8 test 4 writes it)
and prior local state under the `_object` alias — `assignAlias` picks no
suffix (the first DTO element is not an object and the `_string` alias is
not populated), so `Flatten` populates plain `ip_filter`, not
`ip_filter_object` as the claim requires. -/
theorem c5_counterexample :
    Flatten "s" c5Schema c5Res c5Dto
      = .ok (some [[("ip_filter", .set [.str "a", .str "b"])]]) := by
  have hA : flattenAttr setStrSchema (.list [.str "a", .str "b"])
      = .ok (.set [.str "a", .str "b"]) := by
    rw [setStrSchema]
    exact flattenAttr_set_scalar _ _ _ _ _ c5_scalars
  have hf1 : flattenField1 "ip_filter" setStrSchema c5Dto
      = .ok (some ("ip_filter", .set [.str "a", .str "b"])) :=
    flattenField1_some "ip_filter" setStrSchema c5Dto (.list [.str "a", .str "b"])
      (.set [.str "a", .str "b"]) (by rfl) (fun hh => nomatch hh) hA
  have hf2 : flattenField1 "ip_filter_string" setStrSchema c5Dto = .ok none :=
    flattenField1_absent _ _ _ (by rfl)
  have hf3 : flattenField1 "ip_filter_object" ipObjListSchema c5Dto = .ok none :=
    flattenField1_absent _ _ _ (by rfl)
  have hff : flattenFields c5Fields c5Dto = .ok [("ip_filter", .set [.str "a", .str "b"])] := by
    rw [show c5Fields = [SField.mk "ip_filter" setStrSchema,
      SField.mk "ip_filter_string" setStrSchema,
      SField.mk "ip_filter_object" ipObjListSchema] from rfl]
    exact flattenFields_cons_some _ _ _ _ _ _ hf1
      (flattenFields_cons_none _ _ _ _ _ hf2
        (flattenFields_cons_none _ _ _ _ _ hf3 (flattenFields_nil _)))
  refine Flatten_eval "s" c5Schema c5Res c5Dto c5Dto c5Fields _ rfl rfl ?_
  rw [show copyCreateOnly c5Res ("s" ++ userConfigSuffix ++ ".0.") c5Dto = c5Dto from rfl]
  rw [flattenObj, hff]

/-- The DTO variant whose `ip_filter` array holds objects. -/
def c5DtoObj : List (String × Val) := [("ip_filter", .list [.map [("network", .str "a")]])]

/-- Claim C5 (amended): (1) when the DTO's `ip_filter` array holds
*objects* and the prior local state uses the `_object` alias, `Flatten`
populates `ip_filter_object` and neither of the other two names; (2) for
every `Flatten` call whose input DTO honors the wire convention (neither
`ip_filter_string` nor `ip_filter_object` appears in the DTO — the API only
uses the logical name), at most one of `ip_filter`, `ip_filter_string`,
`ip_filter_object` is populated in the result. -/
theorem c5_amended :
    (Flatten "s" c5Schema c5Res c5DtoObj
      = .ok (some [[("ip_filter_object", .list [.map [("network", .str "a")]])]]))
    ∧ ∀ (kind : String) (sch : Schema) (d : ResourceData) (dto : List (String × Val))
        (tfo : List (String × Val)),
        getVal dto "ip_filter_string" = none →
        getVal dto "ip_filter_object" = none →
        Flatten kind sch d dto = .ok (some [tfo]) →
        exclusiveThree tfo "ip_filter" "ip_filter_string" "ip_filter_object" := by
  constructor
  · have hobj : flattenObj c5Fields
        [("ip_filter_object", .list [.map [("network", .str "a")]])]
        = .ok (some [("ip_filter_object", .list [.map [("network", .str "a")]])]) := by
      have hitems : flattenItems [netField] [.map [("network", .str "a")]]
          = .ok [.map [("network", .str "a")]] :=
        flattenItems_cons_keep [netField] [("network", .str "a")] [] ("network", .str "a")
          [] [] (c7_netObj "a") (flattenItems_nil _)
      have hA : flattenAttr ipObjListSchema (.list [.map [("network", .str "a")]])
          = .ok (.list [.map [("network", .str "a")]]) := by
        rw [ipObjListSchema]
        exact flattenAttr_resource_list _ _ _ _ _ hitems
      have hf3 : flattenField1 "ip_filter_object" ipObjListSchema
          [("ip_filter_object", .list [.map [("network", .str "a")]])]
          = .ok (some ("ip_filter_object", .list [.map [("network", .str "a")]])) :=
        flattenField1_some "ip_filter_object" ipObjListSchema _
          (.list [.map [("network", .str "a")]]) (.list [.map [("network", .str "a")]])
          (by rfl) (fun hh => nomatch hh) hA
      have hf1 : flattenField1 "ip_filter" setStrSchema
          [("ip_filter_object", .list [.map [("network", .str "a")]])] = .ok none :=
        flattenField1_absent _ _ _ (by rfl)
      have hf2 : flattenField1 "ip_filter_string" setStrSchema
          [("ip_filter_object", .list [.map [("network", .str "a")]])] = .ok none :=
        flattenField1_absent _ _ _ (by rfl)
      rw [show c5Fields = [SField.mk "ip_filter" setStrSchema,
        SField.mk "ip_filter_string" setStrSchema,
        SField.mk "ip_filter_object" ipObjListSchema] from rfl]
      rw [flattenObj, flattenFields_cons_none _ _ _ _ _ hf1
        (flattenFields_cons_none _ _ _ _ _ hf2
          (flattenFields_cons_some _ _ _ _ _ _ hf3 (flattenFields_nil _)))]
    refine Flatten_eval "s" c5Schema c5Res c5DtoObj
      [("ip_filter_object", .list [.map [("network", .str "a")]])] c5Fields _ rfl rfl ?_
    rw [show copyCreateOnly c5Res ("s" ++ userConfigSuffix ++ ".0.")
          [("ip_filter_object", .list [.map [("network", .str "a")]])]
        = [("ip_filter_object", .list [.map [("network", .str "a")]])] from rfl]
    exact hobj
  · intro kind sch d dto tfo hs ho hF
    obtain ⟨fields, dto2, tfo2, helem, hns, hff, heq⟩ := Flatten_ok_inv kind sch d dto [tfo] hF
    have htt : tfo = tfo2 := by simpa using heq
    have hexcl := ipFilterStep_exclusive d (kind ++ userConfigSuffix ++ ".0.") dto hs ho
    have hp : ∀ a, a ≠ "rules" → a ≠ "admin_username" → a ≠ "admin_password" →
        getVal (copyCreateOnly d (kind ++ userConfigSuffix ++ ".0.") dto2) a
          = getVal (ipFilterStep d (kind ++ userConfigSuffix ++ ".0.") dto) a := by
      intro a h1 h2 h3
      rw [copyCreateOnly_getVal_ne d _ dto2 a h2 h3,
        namespacesStep_ok_getVal d _ _ dto2 a h1 hns]
    have key : ∀ a, a ≠ "rules" → a ≠ "admin_username" → a ≠ "admin_password" →
        (getVal tfo a).isSome = true →
        (getVal (ipFilterStep d (kind ++ userConfigSuffix ++ ".0.") dto) a).isSome = true := by
      intro a h1 h2 h3 hA
      by_cases h0 : getVal (copyCreateOnly d (kind ++ userConfigSuffix ++ ".0.") dto2) a = none
      · have h4 := flattenFields_getVal_none fields _ a tfo2 h0 hff
        rw [htt, h4] at hA
        cases hA
      · rw [hp a h1 h2 h3] at h0
        exact Option.isSome_iff_ne_none.mpr h0
    refine ⟨fun hh => hexcl.1 ⟨?_, ?_⟩, fun hh => hexcl.2.1 ⟨?_, ?_⟩,
      fun hh => hexcl.2.2 ⟨?_, ?_⟩⟩
    · exact key _ (by decide) (by decide) (by decide) hh.1
    · exact key _ (by decide) (by decide) (by decide) hh.2
    · exact key _ (by decide) (by decide) (by decide) hh.1
    · exact key _ (by decide) (by decide) (by decide) hh.2
    · exact key _ (by decide) (by decide) (by decide) hh.1
    · exact key _ (by decide) (by decide) (by decide) hh.2

/-- Witness for C5 (amended), applying the exclusivity part at a concrete
convention-honoring call. -/
theorem c5_amended_witness :
    getVal [("admin_password", Val.str "z")] "ip_filter_string" = none
    ∧ getVal [("admin_password", Val.str "z")] "ip_filter_object" = none
    ∧ exclusiveThree [("admin_password", Val.str "z")]
        "ip_filter" "ip_filter_string" "ip_filter_object" := by
  have hA : flattenAttr (Schema.mk .string false 0 .empty) (.str "z") = .ok (.str "z") := by
    rw [flattenAttr_string]
    rfl
  have hf1 : flattenField1 "admin_password" (Schema.mk .string false 0 .empty)
      [("admin_password", .str "z")] = .ok (some ("admin_password", .str "z")) :=
    flattenField1_some "admin_password" _ _ (.str "z") (.str "z") (by rfl)
      (fun hh => nomatch hh) hA
  have hobj : flattenObj [adminPwField] [("admin_password", .str "z")]
      = .ok (some [("admin_password", .str "z")]) := by
    rw [show [adminPwField] = [SField.mk "admin_password" (Schema.mk .string false 0 .empty)]
      from rfl]
    rw [flattenObj, flattenFields_cons_some _ _ _ _ _ _ hf1 (flattenFields_nil _)]
  have hF : Flatten "s" c6Schema emptyRes [("admin_password", .str "z")]
      = .ok (some [[("admin_password", .str "z")]]) :=
    Flatten_eval "s" c6Schema emptyRes [("admin_password", .str "z")]
      [("admin_password", .str "z")] [adminPwField] _ rfl rfl
      (by rw [show copyCreateOnly emptyRes ("s" ++ userConfigSuffix ++ ".0.")
                [("admin_password", .str "z")] = [("admin_password", .str "z")] from rfl]
          exact hobj)
  exact ⟨rfl, rfl,
    c5_amended.2 "s" c6Schema emptyRes [("admin_password", .str "z")]
      [("admin_password", .str "z")] rfl rfl hF⟩

/-- Forward evaluation of `Expand` from its stages. -/
theorem Expand_eval (kind : String) (sch : Schema) (d : ResourceData)
    (fields : List SField) (dto : List (String × Val))
    (hsch : sch.elem = .resource fields)
    (hf : expandFields fields (rootState kind d) = .ok dto) :
    Expand kind sch d = .ok (renameAliases dto) := by
  rw [Expand]
  split
  · rename_i fields2 hf2
    rw [hsch] at hf2
    cases hf2
    rw [hf]
  · rename_i hnone
    rw [hsch] at hnone
    exact absurd rfl (hnone fields)

/-- The wire boundary between `Expand`'s output and `Flatten`'s input:
`encoding/json` marshalling of the outgoing DTO and decoding of the API's
response with `UseNumber` turn Go ints and floats into `json.Number` leaves
and keep strings and bools; applied leaf-wise to the scalar tree of the
round-trip claim. -/
def wireScalar : Val → Val
  | .int n => .jsonNum n
  | .float q => .jsonNum q
  | v => v

/-- The raw-config scalar corresponding to a materialized scalar value. -/
def ctyOfScalar : Val → Cty
  | .str s => .str s
  | .bool b => .bool b
  | .int n => .num n
  | .float q => .num q
  | _ => .null

def scalarSchema (t : SchemaType) : Schema := .mk t false 0 .empty

def roundSchema (t : SchemaType) : Schema :=
  .mk .list false 1 (.resource [.mk "f" (scalarSchema t)])

/-- A store holding the single user-declared scalar `f = v`, in both the raw
config and the materialized state. -/
def roundTripRes (v : Val) : ResourceData :=
  { rawConfig := .obj [("s_user_config", .seq [.obj [("f", ctyOfScalar v)]])]
    state := [("s_user_config.0.f", v)]
    changed := [], isNew := false }

/-- `flatten` after `expand` across the JSON wire, on the tree holding one
scalar leaf `v`. -/
def roundTrip (t : SchemaType) (v : Val) : Except GoErr (Option (List (List (String × Val)))) :=
  match Expand "s" (roundSchema t) (roundTripRes v) with
  | .error e => .error e
  | .ok dto => Flatten "s" (roundSchema t) (roundTripRes v) (dto.map (fun p => (p.1, wireScalar p.2)))

/-- `v` is a value of the declared scalar kind `t`. -/
def scalarTyped : SchemaType → Val → Prop
  | .string, .str _ => True
  | .bool, .bool _ => True
  | .int, .int _ => True
  | .float, .float _ => True
  | _, _ => False

theorem Expand_round (t : SchemaType) (v : Val)
    (hA : expandAttr (scalarSchema t) (propState (rootState "s" (roundTripRes v)) "f")
      = .ok (some v)) :
    Expand "s" (roundSchema t) (roundTripRes v) = .ok [("f", v)] := by
  have h1 : expandField1 "f" (scalarSchema t) (rootState "s" (roundTripRes v))
      = .ok (some ("f", v)) :=
    expandField1_some _ _ _ _ rfl hA
  have h2 : expandFields [SField.mk "f" (scalarSchema t)] (rootState "s" (roundTripRes v))
      = .ok [("f", v)] :=
    expandFields_cons_some _ _ _ _ _ _ h1 (expandFields_nil _)
  have h3 := Expand_eval "s" (roundSchema t) (roundTripRes v)
    [SField.mk "f" (scalarSchema t)] [("f", v)] rfl h2
  rw [h3]
  rfl

theorem Flatten_round (t : SchemaType) (v w : Val) (hw : w ≠ .null)
    (hfA : flattenAttr (scalarSchema t) w = .ok v) :
    Flatten "s" (roundSchema t) (roundTripRes v) [("f", w)] = .ok (some [[("f", v)]]) := by
  have hff : flattenField1 "f" (scalarSchema t) [("f", w)] = .ok (some ("f", v)) :=
    flattenField1_some "f" (scalarSchema t) [("f", w)] w v rfl hw hfA
  have hfs : flattenFields [SField.mk "f" (scalarSchema t)] [("f", w)] = .ok [("f", v)] :=
    flattenFields_cons_some _ _ _ _ _ _ hff (flattenFields_nil _)
  have hobj : flattenObj [SField.mk "f" (scalarSchema t)]
      (copyCreateOnly (roundTripRes v) ("s" ++ userConfigSuffix ++ ".0.") [("f", w)])
      = .ok (some [("f", v)]) := by
    rw [show copyCreateOnly (roundTripRes v) ("s" ++ userConfigSuffix ++ ".0.") [("f", w)]
      = [("f", w)] from rfl]
    rw [flattenObj, hfs]
  exact Flatten_eval "s" (roundSchema t) (roundTripRes v) [("f", w)] [("f", w)]
    [SField.mk "f" (scalarSchema t)] [("f", v)] rfl rfl hobj

theorem roundTrip_eval (t : SchemaType) (v w : Val)
    (hE : Expand "s" (roundSchema t) (roundTripRes v) = .ok [("f", v)])
    (hw : wireScalar v = w)
    (hFl : Flatten "s" (roundSchema t) (roundTripRes v) [("f", w)] = .ok (some [[("f", v)]])) :
    roundTrip t v = .ok (some [[("f", v)]]) := by
  rw [roundTrip, hE]
  subst hw
  exact hFl

/-- C9: for any scalar leaf value v declared by the user (a string, bool,
int or float field present in both config and materialized state), expanding
the tree containing v and then flattening the resulting DTO across the JSON
wire reproduces the original tree. -/
theorem c9_scalar_round_trip (t : SchemaType) (v : Val) (h : scalarTyped t v) :
    roundTrip t v = .ok (some [[("f", v)]]) := by
  cases t <;> cases v <;> first | exact (h : False).elim | skip
  case string.str s =>
    refine roundTrip_eval _ _ (.str s) (Expand_round _ _ ?_) rfl
      (Flatten_round _ _ _ (fun hh => Val.noConfusion hh) ?_)
    · rw [scalarSchema, expandAttr_string]
      rfl
    · rw [scalarSchema, flattenAttr_string]
      rfl
  case bool.bool b =>
    refine roundTrip_eval _ _ (.bool b) (Expand_round _ _ ?_) rfl
      (Flatten_round _ _ _ (fun hh => Val.noConfusion hh) ?_)
    · rw [scalarSchema, expandAttr_bool]
      rfl
    · rw [scalarSchema, flattenAttr_bool]
      rfl
  case int.int n =>
    refine roundTrip_eval _ _ (.jsonNum (n : ℚ)) (Expand_round _ _ ?_) rfl
      (Flatten_round _ _ _ (fun hh => Val.noConfusion hh) ?_)
    · rw [scalarSchema, expandAttr_int]
      rfl
    · rw [scalarSchema, flattenAttr_int, jsonInt]
      rw [if_pos (Rat.den_intCast n)]
      rw [Rat.num_intCast]
  case float.float q =>
    refine roundTrip_eval _ _ (.jsonNum q) (Expand_round _ _ ?_) rfl
      (Flatten_round _ _ _ (fun hh => Val.noConfusion hh) ?_)
    · rw [scalarSchema, expandAttr_float]
      rfl
    · rw [scalarSchema, flattenAttr_float]
      rfl

theorem c9_witness :
    scalarTyped .string (.str "x") ∧
      roundTrip .string (.str "x") = .ok (some [[("f", .str "x")]]) :=
  ⟨True.intro, c9_scalar_round_trip .string (.str "x") True.intro⟩
